import Mathlib

/-!
Verification development for the transaction-ingestion, pattern-detection and
cash-flow forecasting engine of the paydate-pilot repository.

The TypeScript sources are shallowly embedded: JS numbers are modelled as
exact rationals (ℚ), dates as days-since-epoch integers (Int), strings as
Lean strings manipulated through structural char-list functions (the core
library string functions are avoided because they do not reduce in the
kernel).  Where the repository contains two revisions of a file, the later
revision (stable transaction ids, cadence-based recurring detection,
liquidity-balance projection) is the one embedded, matching the imports used
by the rest of the code base.
-/

namespace Paydate

/-! ## Character/string primitives (structural, kernel-computable) -/

/-- Whitespace test used for the JS `\s` class and `trim`. -/
def isWS (c : Char) : Bool := c.isWhitespace

/-- Drop whitespace from both ends of a char list (JS `String.prototype.trim`). -/
def trimChars (l : List Char) : List Char :=
  ((l.dropWhile isWS).reverse.dropWhile isWS).reverse

/-- Trim of a string. -/
def jsTrim (s : String) : String := ⟨trimChars s.data⟩

/-- Lower-casing (ASCII; the inputs of interest are ASCII). -/
def lowerChars (l : List Char) : List Char := l.map Char.toLower

/-- Lower-casing of a string (JS `toLowerCase`). -/
def jsLower (s : String) : String := ⟨lowerChars s.data⟩

/-- Upper-casing of a string (JS `toUpperCase`). -/
def jsUpper (s : String) : String := ⟨s.data.map Char.toUpper⟩

/-- Does the char list contain the pattern as a contiguous sublist? -/
def containsSub : List Char → List Char → Bool
  | _, [] => true
  | [], _ :: _ => false
  | c :: t, p => p.isPrefixOf (c :: t) || containsSub t p

/-- JS `String.prototype.includes`. -/
def strIncludes (s pat : String) : Bool := containsSub s.data pat.data

/-- JS `String.prototype.startsWith`. -/
def strStarts (s pat : String) : Bool := pat.data.isPrefixOf s.data

/-- Split a char list at every occurrence of the separator char
(JS `String.prototype.split` with a single-char separator). -/
def splitChar (sep : Char) (l : List Char) : List (List Char) :=
  l.foldr
    (fun ch acc =>
      if ch = sep then [] :: acc
      else
        match acc with
        | [] => [[ch]]
        | g :: gs => (ch :: g) :: gs)
    [[]]

/-- Split of a string into strings. -/
def jsSplit (sep : Char) (s : String) : List String :=
  (splitChar sep s.data).map (fun l => ⟨l⟩)

/-- JS `padStart(2, '0')`. -/
def pad2 (s : String) : String :=
  ⟨List.replicate (2 - s.data.length) '0' ++ s.data⟩

/-- Are all chars decimal digits (and the list nonempty)? -/
def allDigits (l : List Char) : Bool :=
  !l.isEmpty && l.all (fun c => c.isDigit)

/-- Numeric value of a digit list (most significant first). -/
def digitsToNat (l : List Char) : Nat :=
  l.foldl (fun a c => 10 * a + (c.toNat - 48)) 0

/-! ## Association lists with JS `Map` semantics

`setA` replaces the value in place when the key is present (keeping the key's
original position, as a JS `Map` does) and appends otherwise; `lookupA` finds
the value for a key. -/

/-- Lookup in an association list. -/
def lookupA {α : Type} (m : List (String × α)) (k : String) : Option α :=
  match m with
  | [] => none
  | (k', v) :: t => if k' = k then some v else lookupA t k

/-- JS `Map.prototype.set`: replace in place or append. -/
def setA {α : Type} (m : List (String × α)) (k : String) (v : α) :
    List (String × α) :=
  match m with
  | [] => [(k, v)]
  | (k', v') :: t => if k' = k then (k, v) :: t else (k', v') :: setA t k v

theorem lookupA_setA {α : Type} (m : List (String × α)) (k k' : String) (v : α) :
    lookupA (setA m k v) k' = if k = k' then some v else lookupA m k' := by
  induction m with
  | nil =>
    by_cases h : k = k' <;> simp [setA, lookupA, h]
  | cons hd t ih =>
    obtain ⟨k0, v0⟩ := hd
    by_cases h1 : k0 = k
    · subst h1
      by_cases h2 : k0 = k' <;> simp [setA, lookupA, h2]
    · by_cases h2 : k0 = k'
      · subst h2
        have hkk : ¬ k = k0 := fun h => h1 h.symm
        simp [setA, lookupA, h1, hkk]
      · simp [setA, lookupA, h1, h2, ih]

/-- Write a sequence of (key, value) events into a map, later writes winning. -/
def writeAll {α : Type} (m : List (String × α)) (ws : List (String × α)) :
    List (String × α) :=
  ws.foldl (fun acc p => setA acc p.1 p.2) m

theorem lookupA_writeAll {α : Type} (m : List (String × α))
    (ws : List (String × α)) (k : String) :
    lookupA (writeAll m ws) k =
      match ws.reverse.find? (fun p => p.1 = k) with
      | some p => some p.2
      | none => lookupA m k := by
  induction ws generalizing m with
  | nil => simp [writeAll]
  | cons hd t ih =>
    obtain ⟨k0, v0⟩ := hd
    simp only [writeAll, List.foldl_cons, List.reverse_cons] at *
    rw [ih]
    rcases hf : t.reverse.find? (fun p => p.1 = k) with _ | p
    · simp only [List.find?_append, hf, Option.none_orElse]
      by_cases hk : k0 = k
      · subst hk
        simp [lookupA_setA, List.find?]
      · simp [lookupA_setA, hk, List.find?]
    · simp [List.find?_append, hf]

/-- Append an element to the group of a key, preserving JS `Map` grouping
order: the group for a key sits at the position where the key first appeared,
and elements are appended in encounter order (`map.get(k) || []` then `push`
then `set`). -/
def pushGroup {α : Type} (m : List (String × List α)) (k : String) (x : α) :
    List (String × List α) :=
  setA m k (((lookupA m k).getD []) ++ [x])

/-- Group a list by a key function, in encounter order. -/
def buildGroups {α : Type} (f : α → String) :
    List α → List (String × List α) → List (String × List α)
  | [], m => m
  | x :: xs, m => buildGroups f xs (pushGroup m (f x) x)

theorem lookupA_buildGroups_some {α : Type} (f : α → String) (l : List α)
    (m : List (String × List α)) (k : String) (g : List α)
    (h : lookupA m k = some g) :
    lookupA (buildGroups f l m) k = some (g ++ l.filter (fun x => f x = k)) := by
  induction l generalizing m g with
  | nil => simpa [buildGroups] using h
  | cons x xs ih =>
    by_cases hx : f x = k
    · have : lookupA (pushGroup m (f x) x) k = some (g ++ [x]) := by
        simp [pushGroup, lookupA_setA, hx, h]
      simpa [buildGroups, List.filter_cons, hx] using ih _ _ this
    · have : lookupA (pushGroup m (f x) x) k = some g := by
        simp [pushGroup, lookupA_setA, hx, h]
      simpa [buildGroups, List.filter_cons, hx] using ih _ _ this

theorem lookupA_buildGroups_none {α : Type} (f : α → String) (l : List α)
    (m : List (String × List α)) (k : String)
    (h : lookupA m k = none) :
    lookupA (buildGroups f l m) k =
      match l.filter (fun x => f x = k) with
      | [] => none
      | fl => some fl := by
  induction l generalizing m with
  | nil => simpa [buildGroups] using h
  | cons x xs ih =>
    by_cases hx : f x = k
    · subst hx
      have hset : lookupA (pushGroup m (f x) x) (f x) = some [x] := by
        simp [pushGroup, lookupA_setA, h]
      have hres := lookupA_buildGroups_some f xs (pushGroup m (f x) x) (f x)
        [x] hset
      simp [buildGroups, List.filter_cons, hres]
    · have hset : lookupA (pushGroup m (f x) x) k = none := by
        simp [pushGroup, lookupA_setA, hx, h]
      simpa [buildGroups, List.filter_cons, hx] using ih _ hset

/-- The keys of an association list. -/
def keysA {α : Type} (m : List (String × α)) : List String := m.map (·.1)

theorem keysA_setA {α : Type} (m : List (String × α)) (k : String) (v : α) :
    (k ∈ keysA (setA m k v)) ∧
      (∀ k', k' ∈ keysA (setA m k v) → k' = k ∨ k' ∈ keysA m) := by
  induction m with
  | nil => simp [setA, keysA]
  | cons h t ih =>
    obtain ⟨k0, v0⟩ := h
    by_cases h1 : k0 = k
    · subst h1
      constructor
      · simp [setA, keysA]
      · intro k' hk'
        simp [setA, keysA] at hk' ⊢
        tauto
    · simp only [setA, if_neg h1, keysA, List.map_cons, List.mem_cons]
      constructor
      · right; exact ih.1
      · rintro k' (rfl | hk')
        · right; left; rfl
        · rcases ih.2 k' hk' with h2 | h2
          · left; exact h2
          · right; right; exact h2

theorem nodup_keysA_setA {α : Type} (m : List (String × α)) (k : String)
    (v : α) (h : (keysA m).Nodup) : (keysA (setA m k v)).Nodup := by
  induction m with
  | nil => simp [setA, keysA]
  | cons hd t ih =>
    obtain ⟨k0, v0⟩ := hd
    simp only [keysA, List.map_cons, List.nodup_cons] at h
    by_cases h1 : k0 = k
    · subst h1
      simpa [setA, keysA] using h
    · simp only [setA, if_neg h1, keysA, List.map_cons, List.nodup_cons]
      refine ⟨fun hc => ?_, ih h.2⟩
      rcases (keysA_setA t k v).2 k0 hc with h2 | h2
      · exact h1 h2
      · exact h.1 h2

theorem nodup_keysA_buildGroups {α : Type} (f : α → String) (l : List α)
    (m : List (String × List α)) (h : (keysA m).Nodup) :
    (keysA (buildGroups f l m)).Nodup := by
  induction l generalizing m with
  | nil => exact h
  | cons x xs ih => exact ih _ (nodup_keysA_setA _ _ _ h)

theorem lookupA_of_mem_nodup {α : Type} (m : List (String × α)) (k : String)
    (v : α) (hnd : (keysA m).Nodup) (hmem : (k, v) ∈ m) :
    lookupA m k = some v := by
  induction m with
  | nil => simp at hmem
  | cons hd t ih =>
    obtain ⟨k0, v0⟩ := hd
    simp only [keysA, List.map_cons, List.nodup_cons] at hnd
    rcases List.mem_cons.1 hmem with h | h
    · injection h with h1 h2
      subst h1; subst h2
      simp [lookupA]
    · by_cases hk : k0 = k
      · subst hk
        exact absurd (by simpa [keysA] using List.mem_map_of_mem Prod.fst h)
          hnd.1
      · simpa [lookupA, hk] using ih hnd.2 h

theorem mem_of_lookupA {α : Type} (m : List (String × α)) (k : String) (v : α)
    (h : lookupA m k = some v) : (k, v) ∈ m := by
  induction m with
  | nil => simp [lookupA] at h
  | cons hd t ih =>
    obtain ⟨k0, v0⟩ := hd
    by_cases hk : k0 = k
    · subst hk
      simp [lookupA] at h
      subst h; exact List.mem_cons_self _ _
    · simp only [lookupA, if_neg hk] at h
      exact List.mem_cons_of_mem _ (ih h)

theorem mem_buildGroups_eq_filter {α : Type} (f : α → String) (l : List α)
    (k : String) (g : List α)
    (hmem : (k, g) ∈ buildGroups f l []) :
    g = l.filter (fun x => f x = k) := by
  have hnd : (keysA (buildGroups f l [])).Nodup :=
    nodup_keysA_buildGroups f l [] (by simp [keysA])
  have hlk : lookupA (buildGroups f l []) k = some g :=
    lookupA_of_mem_nodup _ _ _ hnd hmem
  rw [lookupA_buildGroups_none f l [] k (by simp [lookupA])] at hlk
  rcases hfl : l.filter (fun x => f x = k) with _ | ⟨y, ys⟩
  · simp [hfl] at hlk
  · simp only [hfl, Option.some.injEq] at hlk
    exact hlk.symm

theorem group_exists_of_mem {α : Type} (f : α → String) (l : List α) (x : α)
    (hx : x ∈ l) :
    (f x, l.filter (fun y => f y = f x)) ∈ buildGroups f l [] := by
  have hne : l.filter (fun y => f y = f x) ≠ [] := by
    intro h
    have hxin : x ∈ l.filter (fun y => f y = f x) := by
      simp [List.mem_filter, hx]
    simp [h] at hxin
  have hlk : lookupA (buildGroups f l []) (f x) =
      some (l.filter (fun y => f y = f x)) := by
    rw [lookupA_buildGroups_none f l [] (f x) (by simp [lookupA])]
    rcases hfl : l.filter (fun y => f y = f x) with _ | ⟨y, ys⟩
    · exact absurd hfl hne
    · rfl
  exact mem_of_lookupA _ _ _ hlk

/-! ## Calendar arithmetic

Dates are modelled as days since the Unix epoch (1970-01-01 = day 0), the
value a JS `Date` holds divided by 86 400 000 ms; all the source's dates are
day-resolution.  `daysFromCivil` converts a proleptic-Gregorian civil date
(1-based month) to an epoch day; `jsMkDate` models the `new Date(y, m, d)`
constructor with its 0-based month and out-of-range normalization. -/

/-- Gregorian leap-year rule (what JS `Date` uses). -/
def isLeap (y : Int) : Bool := (y % 4 == 0 && y % 100 != 0) || y % 400 == 0

/-- Number of days of month m (1-based) in year y. -/
def daysInMonth (y m : Int) : Int :=
  if m = 1 then 31 else if m = 2 then (if isLeap y then 29 else 28)
  else if m = 3 then 31 else if m = 4 then 30 else if m = 5 then 31
  else if m = 6 then 30 else if m = 7 then 31 else if m = 8 then 31
  else if m = 9 then 30 else if m = 10 then 31 else if m = 11 then 30
  else if m = 12 then 31 else 0

/-- Days before month m (1-based) in a non-leap year. -/
def monthOffset (m : Int) : Int :=
  if m = 1 then 0 else if m = 2 then 31 else if m = 3 then 59
  else if m = 4 then 90 else if m = 5 then 120 else if m = 6 then 151
  else if m = 7 then 181 else if m = 8 then 212 else if m = 9 then 243
  else if m = 10 then 273 else if m = 11 then 304 else if m = 12 then 334
  else 0

/-- Days from year 1 Jan 1 up to year y Jan 1 (proleptic Gregorian). -/
def daysBeforeYear (y : Int) : Int :=
  365 * (y - 1) + (y - 1) / 4 - (y - 1) / 100 + (y - 1) / 400

/-- Epoch day of the civil date (y, m, d) with m 1-based.  719162 is the day
count of 1970-01-01 from year 1, so that the epoch is day 0. -/
def daysFromCivil (y m d : Int) : Int :=
  daysBeforeYear y + monthOffset m + (if 3 ≤ m ∧ isLeap y then 1 else 0) +
    (d - 1) - 719162

/-- JS `new Date(y, m, d)` with 0-based month m: months overflow into years
and day 0 / day overflow normalize through plain day arithmetic. -/
def jsMkDate (y m d : Int) : Int :=
  daysFromCivil ((12 * y + m) / 12) ((12 * y + m) % 12 + 1) 1 + (d - 1)

/-- JS `Date.prototype.getDay`: 0 = Sunday … 6 = Saturday
(1970-01-01 was a Thursday, code 4). -/
def dayOfWeek (e : Int) : Int := (e + 4) % 7

/-- The BANK_HOLIDAYS table of businessDays.ts, as epoch days. -/
def BANK_HOLIDAYS : List Int :=
  [daysFromCivil 2025 1 1, daysFromCivil 2025 1 20, daysFromCivil 2025 2 17,
   daysFromCivil 2025 5 26, daysFromCivil 2025 6 19, daysFromCivil 2025 7 4,
   daysFromCivil 2025 9 1, daysFromCivil 2025 10 13, daysFromCivil 2025 11 11,
   daysFromCivil 2025 11 27, daysFromCivil 2025 12 25,
   daysFromCivil 2026 1 1, daysFromCivil 2026 1 19, daysFromCivil 2026 2 16,
   daysFromCivil 2026 5 25, daysFromCivil 2026 6 19, daysFromCivil 2026 7 3,
   daysFromCivil 2026 9 7, daysFromCivil 2026 10 12, daysFromCivil 2026 11 11,
   daysFromCivil 2026 11 26, daysFromCivil 2026 12 25,
   daysFromCivil 2027 1 1, daysFromCivil 2027 1 18, daysFromCivil 2027 2 15,
   daysFromCivil 2027 5 31, daysFromCivil 2027 6 18, daysFromCivil 2027 7 5,
   daysFromCivil 2027 9 6, daysFromCivil 2027 10 11, daysFromCivil 2027 11 11,
   daysFromCivil 2027 11 25, daysFromCivil 2027 12 24]

/-- isBusinessDay of businessDays.ts: not a weekend day, not a listed bank
holiday (the source looks the date up by its YYYY-MM-DD string; string
rendering of a date being injective, this is membership of the epoch day in
the holiday set). -/
def isBusinessDay (e : Int) : Bool :=
  decide (dayOfWeek e ≠ 0 ∧ dayOfWeek e ≠ 6 ∧ e ∉ BANK_HOLIDAYS)

/-- Bounded forward scan for the next business day, starting at offset k.
The source walks day by day in an unbounded while loop; seven days of fuel
always suffice (`exists_bday_within7` below), so the fuel-exhaustion arm is
unreachable. -/
def nbSearch (e : Int) : Nat → Nat → Int
  | 0, k => e + (k : Int)
  | fuel + 1, k =>
    if isBusinessDay (e + (k : Int)) then e + (k : Int)
    else nbSearch e fuel (k + 1)

/-- First business day strictly after e. -/
def nextBusinessDay (e : Int) : Int := nbSearch e 7 1

/-- getNthBusinessDayAfter of businessDays.ts: the source's while loop
increments a counter each time the day-by-day walk hits a business day,
which is iterating the next-business-day step n times. -/
def getNthBusinessDayAfter (e : Int) : Nat → Int
  | 0 => e
  | n + 1 => nextBusinessDay (getNthBusinessDayAfter e n)

/-- Number of business days in the window (e, e + n]. -/
def countBusinessDaysAux (e : Int) : Nat → Nat
  | 0 => 0
  | n + 1 =>
    countBusinessDaysAux e n + (if isBusinessDay (e + (n : Int) + 1) then 1 else 0)

/-- Number of business days in the window (d, e]. -/
def countBusinessDays (d e : Int) : Nat := countBusinessDaysAux d (e - d).toNat

theorem isBusinessDay_eq_true (e : Int) :
    isBusinessDay e = true ↔
      (dayOfWeek e ≠ 0 ∧ dayOfWeek e ≠ 6 ∧ e ∉ BANK_HOLIDAYS) := by
  simp [isBusinessDay]

theorem holiday_gap :
    ∀ a ∈ BANK_HOLIDAYS, ∀ b ∈ BANK_HOLIDAYS, a = b ∨ a + 7 ≤ b ∨ b + 7 ≤ a := by
  decide

theorem exists_two_weekdays (e : Int) :
    ∃ k1 k2 : Int, 1 ≤ k1 ∧ k1 < k2 ∧ k2 ≤ 7 ∧
      (dayOfWeek (e + k1) ≠ 0 ∧ dayOfWeek (e + k1) ≠ 6) ∧
      (dayOfWeek (e + k2) ≠ 0 ∧ dayOfWeek (e + k2) ≠ 6) := by
  have h7 : (e + 4) % 7 = 0 ∨ (e + 4) % 7 = 1 ∨ (e + 4) % 7 = 2 ∨
      (e + 4) % 7 = 3 ∨ (e + 4) % 7 = 4 ∨ (e + 4) % 7 = 5 ∨
      (e + 4) % 7 = 6 := by omega
  unfold dayOfWeek
  rcases h7 with h | h | h | h | h | h | h
  · exact ⟨1, 2, by omega, by omega, by omega, ⟨by omega, by omega⟩,
      ⟨by omega, by omega⟩⟩
  · exact ⟨1, 2, by omega, by omega, by omega, ⟨by omega, by omega⟩,
      ⟨by omega, by omega⟩⟩
  · exact ⟨1, 2, by omega, by omega, by omega, ⟨by omega, by omega⟩,
      ⟨by omega, by omega⟩⟩
  · exact ⟨1, 2, by omega, by omega, by omega, ⟨by omega, by omega⟩,
      ⟨by omega, by omega⟩⟩
  · exact ⟨1, 4, by omega, by omega, by omega, ⟨by omega, by omega⟩,
      ⟨by omega, by omega⟩⟩
  · exact ⟨3, 4, by omega, by omega, by omega, ⟨by omega, by omega⟩,
      ⟨by omega, by omega⟩⟩
  · exact ⟨2, 3, by omega, by omega, by omega, ⟨by omega, by omega⟩,
      ⟨by omega, by omega⟩⟩

theorem exists_bday_within7 (e : Int) :
    ∃ j : Nat, 1 ≤ j ∧ j ≤ 7 ∧ isBusinessDay (e + (j : Int)) = true := by
  obtain ⟨k1, k2, hk1, hlt, hk2, hw1, hw2⟩ := exists_two_weekdays e
  by_cases hmem : (e + k1) ∈ BANK_HOLIDAYS
  · refine ⟨k2.toNat, by omega, by omega, ?_⟩
    have hcast : (k2.toNat : Int) = k2 := by omega
    rw [hcast, isBusinessDay_eq_true]
    refine ⟨hw2.1, hw2.2, fun hmem2 => ?_⟩
    rcases holiday_gap _ hmem _ hmem2 with h | h | h <;> omega
  · refine ⟨k1.toNat, by omega, by omega, ?_⟩
    have hcast : (k1.toNat : Int) = k1 := by omega
    rw [hcast, isBusinessDay_eq_true]
    exact ⟨hw1.1, hw1.2, hmem⟩

theorem nbSearch_spec (e : Int) (fuel k : Nat)
    (h : ∃ j : Nat, k ≤ j ∧ j < k + fuel ∧ isBusinessDay (e + (j : Int)) = true) :
    isBusinessDay (nbSearch e fuel k) = true ∧
      e + (k : Int) ≤ nbSearch e fuel k ∧
      ∀ x : Int, e + (k : Int) ≤ x → x < nbSearch e fuel k →
        isBusinessDay x = false := by
  induction fuel generalizing k with
  | zero =>
    obtain ⟨j, hj1, hj2, _⟩ := h
    omega
  | succ fuel ih =>
    by_cases hb : isBusinessDay (e + (k : Int)) = true
    · refine ⟨by simp [nbSearch, hb], by simp [nbSearch, hb], ?_⟩
      intro x hx1 hx2
      simp only [nbSearch, hb, if_true] at hx2
      omega
    · have hb' : isBusinessDay (e + (k : Int)) = false := by
        simpa using hb
      have hex : ∃ j : Nat, k + 1 ≤ j ∧ j < (k + 1) + fuel ∧
          isBusinessDay (e + (j : Int)) = true := by
        obtain ⟨j, hj1, hj2, hj3⟩ := h
        refine ⟨j, ?_, by omega, hj3⟩
        rcases Nat.eq_or_lt_of_le hj1 with rfl | hlt
        · rw [hj3] at hb'; simp at hb'
        · omega
      obtain ⟨ih1, ih2, ih3⟩ := ih (k + 1) hex
      have hstep : nbSearch e (fuel + 1) k = nbSearch e fuel (k + 1) := by
        simp [nbSearch, hb']
      refine ⟨hstep ▸ ih1, by rw [hstep]; push_cast at ih2 ⊢; omega, ?_⟩
      intro x hx1 hx2
      rw [hstep] at hx2
      by_cases hxk : x = e + (k : Int)
      · rw [hxk]; exact hb'
      · refine ih3 x ?_ hx2
        push_cast
        omega

theorem nextBusinessDay_spec (e : Int) :
    isBusinessDay (nextBusinessDay e) = true ∧ e < nextBusinessDay e ∧
      ∀ x : Int, e < x → x < nextBusinessDay e → isBusinessDay x = false := by
  have hex : ∃ j : Nat, 1 ≤ j ∧ j < 1 + 7 ∧
      isBusinessDay (e + (j : Int)) = true := by
    obtain ⟨j, h1, h2, h3⟩ := exists_bday_within7 e
    exact ⟨j, h1, by omega, h3⟩
  obtain ⟨h1, h2, h3⟩ := nbSearch_spec e 7 1 hex
  unfold nextBusinessDay
  refine ⟨h1, by push_cast at h2; omega, ?_⟩
  intro x hx1 hx2
  exact h3 x (by push_cast; omega) hx2

theorem countBusinessDaysAux_zero_of_none (e : Int) (n : Nat)
    (h : ∀ j : Nat, 1 ≤ j → j ≤ n → isBusinessDay (e + (j : Int)) = false) :
    countBusinessDaysAux e n = 0 := by
  induction n with
  | zero => rfl
  | succ n ih =>
    have hn : isBusinessDay (e + (n : Int) + 1) = false := by
      have := h (n + 1) (by omega) (by omega)
      push_cast at this
      convert this using 2
      ring
    simp only [countBusinessDaysAux, hn, if_false]
    exact ih (fun j h1 h2 => h j h1 (by omega))

theorem countBusinessDaysAux_split (e : Int) (a b : Nat) :
    countBusinessDaysAux e (a + b) =
      countBusinessDaysAux e a + countBusinessDaysAux (e + (a : Int)) b := by
  induction b with
  | zero => rfl
  | succ b ih =>
    have : a + (b + 1) = (a + b) + 1 := by omega
    rw [this]
    simp only [countBusinessDaysAux, ih]
    have harg : e + ((a + b : Nat) : Int) + 1 = e + (a : Int) + (b : Int) + 1 := by
      push_cast; ring
    rw [harg]
    omega

theorem countBusinessDays_next (d : Int) :
    countBusinessDays d (nextBusinessDay d) = 1 := by
  obtain ⟨h1, h2, h3⟩ := nextBusinessDay_spec d
  set nb := nextBusinessDay d with hnb
  have hlen : ∃ len : Nat, 1 ≤ len ∧ (nb - d).toNat = len ∧
      d + (len : Int) = nb := ⟨(nb - d).toNat, by omega, rfl, by omega⟩
  obtain ⟨len, hlen1, hlen2, hlen3⟩ := hlen
  unfold countBusinessDays
  rw [hlen2]
  obtain ⟨len', rfl⟩ : ∃ len', len = len' + 1 := ⟨len - 1, by omega⟩
  simp only [countBusinessDaysAux]
  have hlast : d + (len' : Int) + 1 = nb := by push_cast at hlen3 ⊢; omega
  rw [hlast, h1, if_pos rfl]
  have hzero : countBusinessDaysAux d len' = 0 := by
    refine countBusinessDaysAux_zero_of_none d len' (fun j hj1 hj2 => ?_)
    refine h3 (d + (j : Int)) (by omega) ?_
    push_cast at hlen3 ⊢
    omega
  omega

theorem countBusinessDays_compose (d e e' : Int) (h1 : d ≤ e) (h2 : e ≤ e') :
    countBusinessDays d e' = countBusinessDays d e + countBusinessDays e e' := by
  unfold countBusinessDays
  have ha : (e' - d).toNat = (e - d).toNat + (e' - e).toNat := by omega
  rw [ha, countBusinessDaysAux_split]
  have : d + ((e - d).toNat : Int) = e := by omega
  rw [this]

theorem getNthBusinessDayAfter_le (e : Int) (n : Nat) :
    e ≤ getNthBusinessDayAfter e n := by
  induction n with
  | zero => exact le_refl e
  | succ n ih =>
    have := (nextBusinessDay_spec (getNthBusinessDayAfter e n)).2.1
    simp only [getNthBusinessDayAfter]
    omega

theorem getNthBusinessDayAfter_count (e : Int) (n : Nat) :
    countBusinessDays e (getNthBusinessDayAfter e n) = n := by
  induction n with
  | zero =>
    show countBusinessDays e e = 0
    unfold countBusinessDays
    have h0 : (e - e).toNat = 0 := by omega
    rw [h0]
    rfl
  | succ n ih =>
    have hle := getNthBusinessDayAfter_le e n
    have hlt := (nextBusinessDay_spec (getNthBusinessDayAfter e n)).2.1
    simp only [getNthBusinessDayAfter]
    rw [countBusinessDays_compose e (getNthBusinessDayAfter e n)
      (nextBusinessDay (getNthBusinessDayAfter e n)) hle (by omega),
      ih, countBusinessDays_next]

theorem getNthBusinessDayAfter_gt (e : Int) (n : Nat) (h : 1 ≤ n) :
    e < getNthBusinessDayAfter e n := by
  obtain ⟨n', rfl⟩ : ∃ n', n = n' + 1 := ⟨n - 1, by omega⟩
  have h1 := getNthBusinessDayAfter_le e n'
  have h2 := (nextBusinessDay_spec (getNthBusinessDayAfter e n')).2.1
  simp only [getNthBusinessDayAfter]
  omega

theorem daysFromCivil_month_step (y m : Int) (h1 : 1 ≤ m) (h2 : m ≤ 11) :
    daysFromCivil y (m + 1) 1 = daysFromCivil y m 1 + daysInMonth y m := by
  have hcase : isLeap y = true ∨ isLeap y = false := by
    cases isLeap y <;> simp
  interval_cases m <;> rcases hcase with hl | hl <;>
    simp [daysFromCivil, monthOffset, daysInMonth, hl] <;> omega

theorem daysFromCivil_year_step (y : Int) :
    daysFromCivil (y + 1) 1 1 = daysFromCivil y 12 1 + 31 := by
  have hcase : isLeap y = true ∨ isLeap y = false := by
    cases isLeap y <;> simp
  rcases hcase with hl | hl <;>
    [(simp only [isLeap, Bool.or_eq_true, Bool.and_eq_true, beq_iff_eq,
        bne_iff_ne, ne_eq] at hl);
     (simp only [isLeap, Bool.or_eq_true, Bool.and_eq_true, beq_iff_eq,
        bne_iff_ne, ne_eq, Bool.eq_false_iff] at hl)] <;>
    simp [daysFromCivil, monthOffset, daysBeforeYear, isLeap, hl] <;>
    split <;> omega

theorem jsMkDate_zero_day (y m : Int) (h0 : 0 ≤ m) (h1 : m ≤ 11) :
    jsMkDate y (m + 1) 0 = jsMkDate y m 1 + daysInMonth y (m + 1) - 1 := by
  unfold jsMkDate
  have e1 : (12 * y + m) / 12 = y := by omega
  have e2 : (12 * y + m) % 12 = m := by omega
  rw [e1, e2]
  by_cases hm : m ≤ 10
  · have e3 : (12 * y + (m + 1)) / 12 = y := by omega
    have e4 : (12 * y + (m + 1)) % 12 = m + 1 := by omega
    rw [e3, e4]
    have hstep := daysFromCivil_month_step y (m + 1) (by omega) (by omega)
    omega
  · have hm11 : m = 11 := by omega
    subst hm11
    have e3 : (12 * y + (11 + 1)) / 12 = y + 1 := by omega
    have e4 : (12 * y + (11 + 1)) % 12 = 0 := by omega
    rw [e3, e4]
    simp only [zero_add]
    have e5 : (11 : Int) + 1 = 12 := by norm_num
    rw [e5]
    have hstep := daysFromCivil_year_step y
    have hdim : daysInMonth y 12 = 31 := by norm_num [daysInMonth]
    omega

/-- Contractual pay-period schedule: cutoff dates, payment dates. -/
structure PayPeriodSchedule where
  cutoffDate : Int
  paymentDate : Int
deriving Repr, DecidableEq

/-- getLastDayOfMonth of businessDays.ts: `new Date(year, month + 1, 0)`. -/
def getLastDayOfMonth (y m : Int) : Int := jsMkDate y (m + 1) 0

/-- getContractPayPeriods of businessDays.ts: cutoff on the 15th and on the
last day of the month, payment the 4th business day after each.  The
periodLabel (a locale-rendered month name) is presentation only and is not
modelled. -/
def getContractPayPeriods (y m : Int) : List PayPeriodSchedule :=
  [⟨jsMkDate y m 15, getNthBusinessDayAfter (jsMkDate y m 15) 4⟩,
   ⟨getLastDayOfMonth y m, getNthBusinessDayAfter (getLastDayOfMonth y m) 4⟩]

/-- getNextScheduledPaymentDate of businessDays.ts: scan the current month
and the next two months' periods in order and return the first whose payment
date is strictly after the reference date; the source's fallback (never
reached, as proved below) returns the current month's second period.  The
reference date is passed as civil components (y, m 0-based, d), the values
`getFullYear`/`getMonth`/`getDate` yield for a valid date. -/
def getNextScheduledPaymentDate (y m d : Int) : PayPeriodSchedule :=
  match (([0, 1, 2] : List Int).bind
      (fun off => getContractPayPeriods (y + (m + off) / 12) ((m + off) % 12))).find?
      (fun p => decide (jsMkDate y m d < p.paymentDate)) with
  | some p => p
  | none => (getContractPayPeriods y m).getD 1 ⟨0, 0⟩

/-- Claim C7: for every date d and n ≥ 1, getNthBusinessDayAfter(d, n) lands
neither on a Saturday, a Sunday, nor a listed bank holiday, and the number of
business days in the window strictly after d up to and including the result
is exactly n. -/
theorem getNthBusinessDayAfter_business_and_count (d : Int) (n : Nat)
    (h : 1 ≤ n) :
    dayOfWeek (getNthBusinessDayAfter d n) ≠ 0 ∧
      dayOfWeek (getNthBusinessDayAfter d n) ≠ 6 ∧
      getNthBusinessDayAfter d n ∉ BANK_HOLIDAYS ∧
      countBusinessDays d (getNthBusinessDayAfter d n) = n := by
  obtain ⟨n', rfl⟩ : ∃ n', n = n' + 1 := ⟨n - 1, by omega⟩
  have hb := (nextBusinessDay_spec (getNthBusinessDayAfter d n')).1
  rw [isBusinessDay_eq_true] at hb
  exact ⟨hb.1, hb.2.1, hb.2.2, getNthBusinessDayAfter_count d (n' + 1)⟩

/-- Witness for C7 at the cutoff date 2025-11-15 and n = 4. -/
theorem getNthBusinessDayAfter_business_and_count_witness :
    (1 : Nat) ≤ 4 ∧
      (dayOfWeek (getNthBusinessDayAfter (daysFromCivil 2025 11 15) 4) ≠ 0 ∧
        dayOfWeek (getNthBusinessDayAfter (daysFromCivil 2025 11 15) 4) ≠ 6 ∧
        getNthBusinessDayAfter (daysFromCivil 2025 11 15) 4 ∉ BANK_HOLIDAYS ∧
        countBusinessDays (daysFromCivil 2025 11 15)
          (getNthBusinessDayAfter (daysFromCivil 2025 11 15) 4) = 4) :=
  ⟨by norm_num,
    getNthBusinessDayAfter_business_and_count (daysFromCivil 2025 11 15) 4
      (by norm_num)⟩

/-- Claim C6: for every reference date (valid civil components, month
0-based), the next scheduled payment date is strictly after the reference
date; in particular the function never returns the reference date itself,
even when that date is a payment date. -/
theorem getNextScheduledPaymentDate_strictly_future (y m d : Int)
    (hm0 : 0 ≤ m) (hm1 : m ≤ 11) (hd0 : 1 ≤ d)
    (hd1 : d ≤ daysInMonth y (m + 1)) :
    jsMkDate y m d < (getNextScheduledPaymentDate y m d).paymentDate := by
  have hlast : jsMkDate y m d ≤ getLastDayOfMonth y m := by
    unfold getLastDayOfMonth
    have hz := jsMkDate_zero_day y m hm0 hm1
    have ht : jsMkDate y m d = jsMkDate y m 1 + (d - 1) := by
      unfold jsMkDate; omega
    omega
  have hpay : jsMkDate y m d <
      getNthBusinessDayAfter (getLastDayOfMonth y m) 4 :=
    lt_of_le_of_lt hlast (getNthBusinessDayAfter_gt _ 4 (by norm_num))
  have hp2mem : (⟨getLastDayOfMonth y m,
      getNthBusinessDayAfter (getLastDayOfMonth y m) 4⟩ : PayPeriodSchedule) ∈
      (([0, 1, 2] : List Int).bind
        (fun off => getContractPayPeriods (y + (m + off) / 12) ((m + off) % 12))) := by
    refine List.mem_bind.2 ⟨0, by simp, ?_⟩
    have e1 : (m + 0) / 12 = 0 := by omega
    have e2 : (m + 0) % 12 = m := by omega
    rw [e1, e2]
    simp [getContractPayPeriods]
  have hdef : getNextScheduledPaymentDate y m d =
      match (([0, 1, 2] : List Int).bind
          (fun off => getContractPayPeriods (y + (m + off) / 12) ((m + off) % 12))).find?
          (fun p => decide (jsMkDate y m d < p.paymentDate)) with
      | some p => p
      | none => (getContractPayPeriods y m).getD 1 ⟨0, 0⟩ := rfl
  rw [hdef]
  rcases hf : (([0, 1, 2] : List Int).bind
      (fun off => getContractPayPeriods (y + (m + off) / 12) ((m + off) % 12))).find?
      (fun p => decide (jsMkDate y m d < p.paymentDate)) with _ | p
  · exfalso
    have hnone := List.find?_eq_none.1 hf _ hp2mem
    simp only [decide_eq_true_eq] at hnone
    exact hnone hpay
  · have hp := List.find?_some hf
    simp only [decide_eq_true_eq] at hp
    rw [hf]
    exact hp

/-- Witness for C6 at 2025-01-15 (January is month 0). -/
theorem getNextScheduledPaymentDate_strictly_future_witness :
    ((0 : Int) ≤ 0 ∧ (0 : Int) ≤ 11 ∧ (1 : Int) ≤ 15 ∧
        (15 : Int) ≤ daysInMonth 2025 (0 + 1)) ∧
      jsMkDate 2025 0 15 < (getNextScheduledPaymentDate 2025 0 15).paymentDate :=
  ⟨⟨by norm_num, by norm_num, by norm_num, by decide⟩,
    getNextScheduledPaymentDate_strictly_future 2025 0 15 (by norm_num)
      (by norm_num) (by norm_num) (by decide)⟩

/-! ## Financial projection (useFinanceCalculations.ts, later revision)

The hook wrappers (`useMemo`) are pure computations; `new Date()` anchoring
is made explicit by passing the reference day (`today`) as a parameter, as
the spec's design notes prescribe for testability. -/

/-- BillResolutionStatus of useFinanceCalculations.ts. -/
structure BillResolutionStatus where
  billId : String
  isResolved : Bool
  matchingTransactionId : Option String
  matchingTransactionDate : Option String
  matchingTransactionAmount : Option ℚ
deriving Repr, DecidableEq

/-- PendingCommission (types/finance.ts): the cutoff label and id are
presentation only and not modelled. -/
structure PendingCommission where
  amount : ℚ
  expectedDate : String
deriving Repr, DecidableEq

/-- BillWithStatus of useFinanceCalculations.ts: a Bill (id, vendor, amount,
dueDay, category, active, type) extended with its expected date and
resolution state. -/
structure BillWithStatus where
  id : String
  vendor : String
  amount : ℚ
  dueDay : Int
  category : String
  active : Bool
  type : String
  expectedDate : Int
  isResolved : Bool
  matchInfo : Option BillResolutionStatus
deriving Repr, DecidableEq

/-- FinancialProjection of useFinanceCalculations.ts (later revision). -/
structure FinancialProjection where
  amountToKeep : ℚ
  liquidityBalance : ℚ
  safeToSpend : ℚ
  projectedBalance : ℚ
  commissionForProjection : ℚ
  commissionAppliedToday : Bool
  resolvedCount : Nat
  pendingCount : Nat
  coveragePercent : Int
  isShort : Bool
  shortfall : ℚ
deriving Repr, DecidableEq

/-- Parse a 4-2-2 digit ISO date string. -/
def isoYMD (s : String) : Option (Int × Int × Int) :=
  match splitChar '-' s.data with
  | [ys, ms, ds] =>
    if allDigits ys ∧ ys.length = 4 ∧ allDigits ms ∧ ms.length = 2 ∧
        allDigits ds ∧ ds.length = 2 then
      some ((digitsToNat ys : Int), (digitsToNat ms : Int), (digitsToNat ds : Int))
    else none
  | _ => none

/-- parseLocalDate of useFinanceCalculations.ts: a string matching
`^\d{4}-\d{2}-\d{2}$` becomes `new Date(y, m - 1, d)` (out-of-range days
normalize).  Only the ISO branch is modelled; other strings fall back to the
engine's general date parsing in the source and are treated here as
unparseable (the behaviour of an invalid date). -/
def parseLocalDate (s : String) : Option Int :=
  match isoYMD s with
  | some (y, m, d) => some (jsMkDate y (m - 1) d)
  | none => none

/-- JS `Math.round`: half-up, also for negative arguments. -/
def jsRound (q : ℚ) : Int := ⌊q + 1 / 2⌋

/-- useFinancialProjection of useFinanceCalculations.ts (later revision):
amount to keep from unresolved bills only, same-day commission folded into
liquidity, coverage percent, shortfall. -/
def useFinancialProjection (today : Int) (billsBeforePayday : List BillWithStatus)
    (currentBalance : ℚ) (nextCommission : Option PendingCommission) :
    FinancialProjection :=
  let unresolvedBills := billsBeforePayday.filter (fun b => !b.isResolved)
  let resolvedBills := billsBeforePayday.filter (fun b => b.isResolved)
  let amountToKeep := unresolvedBills.foldl (fun sum bill => sum + bill.amount) 0
  let commissionAmount := match nextCommission with
    | some c => c.amount
    | none => 0
  let commissionDate := match nextCommission with
    | some c => if c.expectedDate = "" then none else parseLocalDate c.expectedDate
    | none => none
  let commissionAppliedToday := match commissionDate with
    | some e => decide (e = today)
    | none => false
  let liquidityBalance :=
    currentBalance + (if commissionAppliedToday then commissionAmount else 0)
  let safeToSpend := liquidityBalance - amountToKeep
  let commissionForProjection :=
    if commissionAppliedToday then 0 else commissionAmount
  let projectedBalance := safeToSpend + commissionForProjection
  let shortfall := max 0 (amountToKeep - liquidityBalance)
  let isShort := decide (shortfall > 0)
  let coveragePercent :=
    if amountToKeep > 0 then
      min 100 (jsRound (liquidityBalance / amountToKeep * 100))
    else 100
  { amountToKeep := amountToKeep
    liquidityBalance := liquidityBalance
    safeToSpend := safeToSpend
    projectedBalance := projectedBalance
    commissionForProjection := commissionForProjection
    commissionAppliedToday := commissionAppliedToday
    resolvedCount := resolvedBills.length
    pendingCount := unresolvedBills.length
    coveragePercent := coveragePercent
    isShort := isShort
    shortfall := shortfall }

theorem foldl_add_amounts (l : List BillWithStatus) (q : ℚ) :
    l.foldl (fun sum bill => sum + bill.amount) q =
      q + (l.map (fun b => b.amount)).sum := by
  induction l generalizing q with
  | nil => simp
  | cons b t ih => simp [ih, add_assoc]

/-- Claim C3: amountToKeep is the sum of the amounts of exactly the
unresolved bills in the window, and a resolved bill contributes nothing to
it (prepending any resolved bill, whatever its due date, leaves amountToKeep
unchanged). -/
theorem amountToKeep_sums_unresolved (today : Int)
    (billsBeforePayday : List BillWithStatus) (currentBalance : ℚ)
    (nextCommission : Option PendingCommission) :
    (useFinancialProjection today billsBeforePayday currentBalance
        nextCommission).amountToKeep =
      ((billsBeforePayday.filter (fun b => !b.isResolved)).map
        (fun b => b.amount)).sum ∧
    ∀ b : BillWithStatus, b.isResolved = true →
      (useFinancialProjection today (b :: billsBeforePayday) currentBalance
          nextCommission).amountToKeep =
        (useFinancialProjection today billsBeforePayday currentBalance
            nextCommission).amountToKeep := by
  constructor
  · simp [useFinancialProjection, foldl_add_amounts]
  · intro b hb
    simp [useFinancialProjection, foldl_add_amounts, List.filter_cons, hb]

/-- Witness for C3: a resolved $50 bill due inside the window is excluded
from amountToKeep. -/
theorem amountToKeep_sums_unresolved_witness :
    (({ id := "b1", vendor := "Internet", amount := 50, dueDay := 5,
        category := "Utilities", active := true, type := "recurring",
        expectedDate := 20090, isResolved := true, matchInfo := none } :
        BillWithStatus).isResolved = true) ∧
    (useFinancialProjection 20100
        ({ id := "b1", vendor := "Internet", amount := 50, dueDay := 5,
            category := "Utilities", active := true, type := "recurring",
            expectedDate := 20090, isResolved := true, matchInfo := none } ::
          []) 200 none).amountToKeep =
      (useFinancialProjection 20100 [] 200 none).amountToKeep :=
  ⟨rfl, (amountToKeep_sums_unresolved 20100 [] 200 none).2 _ rfl⟩

/-- Claim C4: a same-day commission is folded into liquidityBalance with
commissionForProjection zeroed; any other commission leaves liquidityBalance
at currentBalance and enters only through commissionForProjection; and
projectedBalance = safeToSpend + commissionForProjection, so the commission
is never counted twice. -/
theorem commission_not_double_counted (today : Int)
    (billsBeforePayday : List BillWithStatus) (currentBalance : ℚ)
    (c : PendingCommission) :
    (c.expectedDate ≠ "" → parseLocalDate c.expectedDate = some today →
      (useFinancialProjection today billsBeforePayday currentBalance
          (some c)).liquidityBalance = currentBalance + c.amount ∧
      (useFinancialProjection today billsBeforePayday currentBalance
          (some c)).commissionForProjection = 0) ∧
    ((c.expectedDate = "" ∨ parseLocalDate c.expectedDate ≠ some today) →
      (useFinancialProjection today billsBeforePayday currentBalance
          (some c)).liquidityBalance = currentBalance ∧
      (useFinancialProjection today billsBeforePayday currentBalance
          (some c)).commissionForProjection = c.amount) ∧
    (useFinancialProjection today billsBeforePayday currentBalance
        (some c)).projectedBalance =
      (useFinancialProjection today billsBeforePayday currentBalance
          (some c)).safeToSpend +
        (useFinancialProjection today billsBeforePayday currentBalance
            (some c)).commissionForProjection := by
  refine ⟨?_, ?_, ?_⟩
  · intro hne hdate
    simp [useFinancialProjection, hne, hdate]
  · rintro (hempty | hdate)
    · simp [useFinancialProjection, hempty]
    · rcases hp : parseLocalDate c.expectedDate with _ | e
      · by_cases hne : c.expectedDate = "" <;>
          simp [useFinancialProjection, hne, hp]
      · have hne2 : e ≠ today := fun h => hdate (by rw [hp, h])
        by_cases hne : c.expectedDate = "" <;>
          simp [useFinancialProjection, hne, hp, hne2]
  · simp [useFinancialProjection]

/-- Witness for C4: a commission of 1000 expected on day 20100 with today =
20100 is folded into liquidity and not projected again. -/
theorem commission_not_double_counted_witness :
    (("2025-01-12" : String) ≠ "" ∧
        parseLocalDate "2025-01-12" = some (jsMkDate 2025 0 12)) ∧
      (useFinancialProjection (jsMkDate 2025 0 12) []
          100 (some { amount := 1000, expectedDate := "2025-01-12" })).liquidityBalance =
        100 + 1000 ∧
      (useFinancialProjection (jsMkDate 2025 0 12) []
          100 (some { amount := 1000, expectedDate := "2025-01-12" })).commissionForProjection =
        0 := by
  have hiso : parseLocalDate "2025-01-12" = some (jsMkDate 2025 0 12) := by
    simp [parseLocalDate, isoYMD, splitChar, allDigits, digitsToNat]
  exact ⟨⟨by decide, hiso⟩,
    (commission_not_double_counted (jsMkDate 2025 0 12) [] 100
        { amount := 1000, expectedDate := "2025-01-12" }).1 (by decide) hiso⟩

theorem coverage_formula_bounds (A L : ℚ) :
    (if A > 0 then min 100 (jsRound (L / A * 100)) else 100) ≤ 100 ∧
      (0 ≤ L →
        0 ≤ (if A > 0 then min 100 (jsRound (L / A * 100)) else 100)) := by
  constructor
  · split
    · exact min_le_left _ _
    · exact le_refl _
  · intro hL
    split
    · rename_i hA
      refine le_min (by norm_num) ?_
      have hq : (0 : ℚ) ≤ L / A * 100 := by positivity
      have : ((0 : Int) : ℚ) ≤ L / A * 100 + 1 / 2 := by push_cast; linarith
      exact Int.le_floor.2 this
    · norm_num

/-- Counterexample to claim C5 as stated: with one unresolved 100-dollar bill
and a current balance of -50 (no commission), coveragePercent is -50, which
lies outside [0, 100]. -/
theorem coveragePercent_counterexample :
    (useFinancialProjection 0
        [{ id := "b1", vendor := "Rent", amount := 100, dueDay := 5,
            category := "Rent", active := true, type := "recurring",
            expectedDate := 0, isResolved := false, matchInfo := none }]
        (-50) none).coveragePercent = -50 ∧
      (useFinancialProjection 0
        [{ id := "b1", vendor := "Rent", amount := 100, dueDay := 5,
            category := "Rent", active := true, type := "recurring",
            expectedDate := 0, isResolved := false, matchInfo := none }]
        (-50) none).coveragePercent < 0 := by
  have h : (useFinancialProjection 0
      [{ id := "b1", vendor := "Rent", amount := 100, dueDay := 5,
          category := "Rent", active := true, type := "recurring",
          expectedDate := 0, isResolved := false, matchInfo := none }]
      (-50) none).coveragePercent = -50 := by
    simp only [useFinancialProjection, List.filter, List.foldl, jsRound]
    norm_num
  exact ⟨h, by rw [h]; norm_num⟩

/-- Claim C5, amended: coveragePercent never exceeds 100 and follows the
min(100, round(100·liquidity/amountToKeep)) formula (100 when amountToKeep
is not positive); it is bounded below by 0 whenever liquidityBalance is
nonnegative, but a negative liquidityBalance can drive it below 0. -/
theorem coveragePercent_bounds (today : Int) (bills : List BillWithStatus)
    (bal : ℚ) (nc : Option PendingCommission) :
    (useFinancialProjection today bills bal nc).coveragePercent ≤ 100 ∧
      ((useFinancialProjection today bills bal nc).amountToKeep > 0 →
        (useFinancialProjection today bills bal nc).coveragePercent =
          min 100 (jsRound
            ((useFinancialProjection today bills bal nc).liquidityBalance /
              (useFinancialProjection today bills bal nc).amountToKeep * 100))) ∧
      ((useFinancialProjection today bills bal nc).amountToKeep ≤ 0 →
        (useFinancialProjection today bills bal nc).coveragePercent = 100) ∧
      (0 ≤ (useFinancialProjection today bills bal nc).liquidityBalance →
        0 ≤ (useFinancialProjection today bills bal nc).coveragePercent) := by
  refine ⟨?_, ?_, ?_, ?_⟩
  · exact (coverage_formula_bounds _ _).1
  · intro hA
    simp only [useFinancialProjection] at hA ⊢
    rw [if_pos hA]
  · intro hA
    simp only [useFinancialProjection] at hA ⊢
    rw [if_neg (by linarith)]
  · intro hL
    simp only [useFinancialProjection] at hL ⊢
    exact (coverage_formula_bounds _ _).2 hL

/-- Witness for the amended C5 at one unresolved 100-dollar bill and balance
200. -/
theorem coveragePercent_bounds_witness :
    ((useFinancialProjection 0
        [{ id := "b1", vendor := "Rent", amount := 100, dueDay := 5,
            category := "Rent", active := true, type := "recurring",
            expectedDate := 0, isResolved := false, matchInfo := none }]
        200 none).amountToKeep > 0 ∧
      0 ≤ (useFinancialProjection 0
        [{ id := "b1", vendor := "Rent", amount := 100, dueDay := 5,
            category := "Rent", active := true, type := "recurring",
            expectedDate := 0, isResolved := false, matchInfo := none }]
        200 none).liquidityBalance) ∧
      (useFinancialProjection 0
        [{ id := "b1", vendor := "Rent", amount := 100, dueDay := 5,
            category := "Rent", active := true, type := "recurring",
            expectedDate := 0, isResolved := false, matchInfo := none }]
        200 none).coveragePercent ≤ 100 ∧
      0 ≤ (useFinancialProjection 0
        [{ id := "b1", vendor := "Rent", amount := 100, dueDay := 5,
            category := "Rent", active := true, type := "recurring",
            expectedDate := 0, isResolved := false, matchInfo := none }]
        200 none).coveragePercent := by
  have hA : (useFinancialProjection 0
      [{ id := "b1", vendor := "Rent", amount := 100, dueDay := 5,
          category := "Rent", active := true, type := "recurring",
          expectedDate := 0, isResolved := false, matchInfo := none }]
      200 none).amountToKeep > 0 := by
    simp only [useFinancialProjection, List.filter, List.foldl]
    norm_num
  have hL : (0 : ℚ) ≤ (useFinancialProjection 0
      [{ id := "b1", vendor := "Rent", amount := 100, dueDay := 5,
          category := "Rent", active := true, type := "recurring",
          expectedDate := 0, isResolved := false, matchInfo := none }]
      200 none).liquidityBalance := by
    simp only [useFinancialProjection]
    norm_num
  exact ⟨⟨hA, hL⟩, (coveragePercent_bounds 0 _ 200 none).1,
    (coveragePercent_bounds 0 _ 200 none).2.2.2 hL⟩

/-! ## Record parsing (financeUtils.ts, later revision)

JS `parseFloat` is modelled exactly on its grammar (leading whitespace, sign,
digits, fraction, exponent), with NaN as `none`; the special "Infinity"
literal does not occur in tabular amounts and is treated as unparseable. -/

/-- JS `parseFloat`: longest numeric prefix (leading whitespace, sign,
digits, fraction, exponent), `none` for NaN.  The decimal literal's exact
rational value is used (binary floating-point rounding is below the
resolution of every property in the spec). -/
def jsParseFloat (s : String) : Option ℚ :=
  let l := s.data.dropWhile isWS
  let sgn : Int := match l with
    | '-' :: _ => -1
    | _ => 1
  let l1 := match l with
    | '-' :: t => t
    | '+' :: t => t
    | t => t
  let intPart := l1.takeWhile Char.isDigit
  let l2 := l1.dropWhile Char.isDigit
  let fracPart := match l2 with
    | '.' :: t => t.takeWhile Char.isDigit
    | _ => []
  let l3 := match l2 with
    | '.' :: t => t.dropWhile Char.isDigit
    | t => t
  if intPart.isEmpty && fracPart.isEmpty then none
  else
    let expVal : Int := match l3 with
      | 'e' :: '-' :: t =>
        if (t.takeWhile Char.isDigit).isEmpty then 0
        else -(digitsToNat (t.takeWhile Char.isDigit) : Int)
      | 'e' :: '+' :: t =>
        if (t.takeWhile Char.isDigit).isEmpty then 0
        else (digitsToNat (t.takeWhile Char.isDigit) : Int)
      | 'e' :: t =>
        if (t.takeWhile Char.isDigit).isEmpty then 0
        else (digitsToNat (t.takeWhile Char.isDigit) : Int)
      | 'E' :: '-' :: t =>
        if (t.takeWhile Char.isDigit).isEmpty then 0
        else -(digitsToNat (t.takeWhile Char.isDigit) : Int)
      | 'E' :: '+' :: t =>
        if (t.takeWhile Char.isDigit).isEmpty then 0
        else (digitsToNat (t.takeWhile Char.isDigit) : Int)
      | 'E' :: t =>
        if (t.takeWhile Char.isDigit).isEmpty then 0
        else (digitsToNat (t.takeWhile Char.isDigit) : Int)
      | _ => 0
    let mantNum : Int :=
      sgn * ((digitsToNat intPart : Int) * 10 ^ fracPart.length +
        (digitsToNat fracPart : Int))
    some (if 0 ≤ expVal then
        mkRat (mantNum * 10 ^ expVal.toNat) (10 ^ fracPart.length)
      else mkRat mantNum (10 ^ fracPart.length * 10 ^ (-expVal).toNat))

/-- The `parseFloat(x) || 0` idiom: NaN becomes 0 (a parsed 0 already is 0). -/
def jsNum (o : Option ℚ) : ℚ := o.getD 0

/-- JS `parseInt` on a string: leading whitespace, sign, digit prefix;
`none` for NaN. -/
def jsParseInt (s : String) : Option Int :=
  let l := s.data.dropWhile isWS
  let sgn : Int := match l with
    | '-' :: _ => -1
    | _ => 1
  let l1 := match l with
    | '-' :: t => t
    | '+' :: t => t
    | t => t
  let ds := l1.takeWhile Char.isDigit
  if ds.isEmpty then none else some (sgn * (digitsToNat ds : Int))

/-- RawTransaction (types/finance.ts, later revision): qbCategory carries the
QuickBooks account name, the empty string meaning absent. -/
structure RawTransaction where
  details : String
  postingDate : String
  description : String
  amount : ℚ
  type : String
  balance : ℚ
  checkOrSlip : Option String
  qbCategory : String
deriving Repr, DecidableEq

/-- parseCSVLine of financeUtils.ts: quote-aware splitting on commas, quote
characters toggled and dropped, fields trimmed. -/
def parseCSVLineAux : List Char → Bool → List Char → List String
  | [], _, cur => [⟨trimChars cur.reverse⟩]
  | c :: rest, inQuotes, cur =>
    if c = '"' then parseCSVLineAux rest (!inQuotes) cur
    else if c = ',' && !inQuotes then
      ⟨trimChars cur.reverse⟩ :: parseCSVLineAux rest inQuotes []
    else parseCSVLineAux rest inQuotes (c :: cur)

/-- Split one CSV line into trimmed fields. -/
def parseCSVLine (line : String) : List String :=
  parseCSVLineAux line.data false []

/-- The `.replace(/^"|"$/g, '')` idiom: strip one leading and one trailing
quote character. -/
def stripQuoteEnds (s : String) : String :=
  let l1 := match s.data with
    | '"' :: t => t
    | t => t
  let l2 := match l1.reverse with
    | '"' :: t => t.reverse
    | _ => l1
  ⟨l2⟩

/-- parseBankCSV of financeUtils.ts: skip the header row, skip blank lines
and lines with fewer than 6 fields, emit everything else — there is no
zero-amount or missing-date guard in this format parser. -/
def parseBankCSV (lines : List String) : List RawTransaction :=
  (lines.drop 1).filterMap (fun line =>
    if jsTrim line = "" then none
    else
      let fields := parseCSVLine line
      if fields.length < 6 then none
      else
        some { details := fields.getD 0 "",
               postingDate := fields.getD 1 "",
               description := stripQuoteEnds (fields.getD 2 ""),
               amount := jsNum (jsParseFloat (fields.getD 3 "")),
               type := fields.getD 4 "",
               balance := jsNum (jsParseFloat (fields.getD 5 "")),
               checkOrSlip :=
                 match fields.getD 6 "" with
                 | "" => none
                 | s => some s,
               qbCategory := "" })

/-- parseQuickBooksAmount of financeUtils.ts: strip quotes and
comma-thousands, then parseFloat with NaN collapsing to 0. -/
def parseQuickBooksAmount (amountStr : String) : ℚ :=
  if amountStr = "" then 0
  else jsNum (jsParseFloat
    (jsTrim ⟨amountStr.data.filter (fun c => !(c = '"') && !(c = ','))⟩))

/-- parseQuickBooksCSV of financeUtils.ts: locate the header row among the
first 10 lines, then parse the data rows, dropping rows with a missing date
or a zero amount. -/
def parseQuickBooksCSV (lines : List String) : List RawTransaction :=
  match (lines.take 10).findIdx? (fun l =>
      strStarts (jsLower l) "date," && strIncludes (jsLower l) "transaction type") with
  | none => []
  | some h =>
    (lines.drop (h + 1)).filterMap (fun line =>
      if jsTrim line = "" then none
      else
        let fields := parseCSVLine line
        if fields.length < 9 then none
        else
          let date := fields.getD 0 ""
          let transactionType := fields.getD 1 ""
          let name := fields.getD 4 ""
          let description := fields.getD 5 ""
          let accountFullName := fields.getD 7 ""
          let amount := parseQuickBooksAmount (fields.getD 8 "")
          if date = "" ∨ amount = 0 then none
          else
            some { details := transactionType,
                   postingDate := date,
                   description := stripQuoteEnds
                     (if description ≠ "" then description
                      else if name ≠ "" then name else transactionType),
                   amount := amount,
                   type :=
                     if amount > 0 then
                       (if strIncludes (jsLower transactionType) "deposit"
                        then "ACH_CREDIT" else "CREDIT")
                     else "DEBIT",
                   balance := 0,
                   checkOrSlip := none,
                   qbCategory := stripQuoteEnds accountFullName })

/-- parseChaseCardCSV of financeUtils.ts: skip the header, drop blank/short
rows and rows with a missing post date or description; zero amounts are
kept. -/
def parseChaseCardCSV (lines : List String) : List RawTransaction :=
  (lines.drop 1).filterMap (fun line =>
    if jsTrim line = "" then none
    else
      let fields := parseCSVLine line
      if fields.length < 6 then none
      else
        let postDate := fields.getD 1 ""
        let description := stripQuoteEnds (fields.getD 2 "")
        let category := fields.getD 3 ""
        let ty := fields.getD 4 ""
        let amount := jsNum (jsParseFloat
          ⟨(fields.getD 5 "").data.filter (fun c => !(c = ','))⟩)
        let memo := fields.getD 6 ""
        if postDate = "" ∨ description = "" then none
        else
          some { details := ty,
                 postingDate := postDate,
                 description :=
                   if memo ≠ "" then description ++ " - " ++ memo
                   else description,
                 amount := amount,
                 type :=
                   if amount > 0 then "CREDIT"
                   else if amount < 0 then "DEBIT" else jsUpper ty,
                 balance := 0,
                 checkOrSlip := none,
                 qbCategory := category })

/-- The three recognized export formats. -/
inductive CSVFormat
  | bank
  | quickbooks
  | chasecard
deriving Repr, DecidableEq

/-- QuickBooks header signature. -/
def isQBHeaderLine (line : String) : Bool :=
  strIncludes (jsLower line) "transaction type" &&
    strIncludes (jsLower line) "account name"

/-- Bank-statement header signature. -/
def isBankHeaderLine (line : String) : Bool :=
  strStarts (jsLower line) "details," && strIncludes (jsLower line) "posting date"

/-- Card-statement header signature. -/
def isChaseHeaderLine (line : String) : Bool :=
  strIncludes (jsLower line) "transaction date" &&
    strIncludes (jsLower line) "post date" && strIncludes (jsLower line) "amount"

/-- detectCSVFormat of financeUtils.ts: first matching header among the
first 10 lines, QuickBooks tested before the card signature, bank as the
default. -/
def detectCSVFormat (lines : List String) : CSVFormat :=
  match (lines.take 10).find? (fun l => isQBHeaderLine l || isChaseHeaderLine l) with
  | some l => if isQBHeaderLine l then .quickbooks else .chasecard
  | none => .bank

/-- parseFormatSection of financeUtils.ts. -/
def parseFormatSection (lines : List String) (format : CSVFormat) :
    List RawTransaction :=
  match format with
  | .quickbooks => parseQuickBooksCSV lines
  | .chasecard => parseChaseCardCSV lines
  | .bank => parseBankCSV lines

/-- The section-splitting loop of parseCSV: a header line flushes the
current section through its format parser and starts a new section; the
final section is parsed with its detected format. -/
def parseCSVLoop : List String → List String → Option CSVFormat →
    List RawTransaction
  | [], currentSection, currentFormat =>
    match currentSection with
    | [] => []
    | _ =>
      parseFormatSection currentSection
        (match currentFormat with
         | some f => f
         | none => detectCSVFormat currentSection)
  | line :: rest, currentSection, currentFormat =>
    if isQBHeaderLine line || isBankHeaderLine line || isChaseHeaderLine line then
      (match currentFormat, currentSection with
       | some f, _ :: _ => parseFormatSection currentSection f
       | _, _ => []) ++
      parseCSVLoop rest [line]
        (some (if isQBHeaderLine line then .quickbooks
               else if isChaseHeaderLine line then .chasecard else .bank))
    else parseCSVLoop rest (currentSection ++ [line]) currentFormat

/-- parseCSV of financeUtils.ts: trim, split into lines, and run the merged
multi-section loop. -/
def parseCSV (content : String) : List RawTransaction :=
  let lines := jsSplit '\n' (jsTrim content)
  if lines.length < 2 then [] else parseCSVLoop lines [] none

/-- Counterexample to claim C10 as stated: the bank-format parser emits a
row whose date field is empty and whose amount parses to zero — such rows
are not dropped in every supported format. -/
theorem parseCSV_keeps_zero_and_dateless_row :
    (parseCSV
        "Details,Posting Date,Description,Amount,Type,Balance\nD,,Vendor,0,DEBIT,100").map
      (fun r => (r.postingDate, decide (r.amount = 0))) = [("", true)] := by
  decide

/-- Claim C10, amended: only the QuickBooks format parser enforces the drop —
every record it emits has a nonempty date and a nonzero amount (the bank
parser, as the counterexample shows, emits zero-amount and dateless rows,
and the card parser keeps zero amounts). -/
theorem parseQuickBooksCSV_drops_zero_and_dateless (lines : List String)
    (r : RawTransaction) (hr : r ∈ parseQuickBooksCSV lines) :
    r.postingDate ≠ "" ∧ r.amount ≠ 0 := by
  unfold parseQuickBooksCSV at hr
  rcases hidx : (lines.take 10).findIdx? (fun l =>
      strStarts (jsLower l) "date," && strIncludes (jsLower l) "transaction type")
    with _ | h
  · rw [hidx] at hr; simp at hr
  · rw [hidx] at hr
    obtain ⟨line, _, hf⟩ := List.mem_filterMap.1 hr
    by_cases hblank : jsTrim line = ""
    · simp [hblank] at hf
    · rw [if_neg hblank] at hf
      by_cases hlen : (parseCSVLine line).length < 9
      · simp [hlen] at hf
      · rw [if_neg hlen] at hf
        by_cases hguard : (parseCSVLine line).getD 0 "" = "" ∨
            parseQuickBooksAmount ((parseCSVLine line).getD 8 "") = 0
        · simp only [if_pos hguard] at hf
          exact absurd hf (by simp)
        · simp only [if_neg hguard] at hf
          push_neg at hguard
          obtain ⟨hdate, hamt⟩ := hguard
          cases hf
          exact ⟨hdate, hamt⟩

/-- Witness for the amended C10: a QuickBooks row that survives the parser
has a nonempty date and nonzero amount. -/
theorem parseQuickBooksCSV_drops_zero_and_dateless_witness :
    (({ details := "Expense", postingDate := "01/05/2025",
          description := "Netflix", amount := mkRat (-1549) 100,
          type := "DEBIT", balance := 0, checkOrSlip := none,
          qbCategory := "Subscriptions" } : RawTransaction) ∈
        parseQuickBooksCSV
          ["Date,Transaction type,Num,Posting,Name,Memo/Description,Account name,Account full name,Amount",
           "01/05/2025,Expense,1,Y,Netflix,Netflix,Subs,Subscriptions,-15.49"]) ∧
      (({ details := "Expense", postingDate := "01/05/2025",
            description := "Netflix", amount := mkRat (-1549) 100,
            type := "DEBIT", balance := 0, checkOrSlip := none,
            qbCategory := "Subscriptions" } : RawTransaction).postingDate ≠ "" ∧
        ({ details := "Expense", postingDate := "01/05/2025",
            description := "Netflix", amount := mkRat (-1549) 100,
            type := "DEBIT", balance := 0, checkOrSlip := none,
            qbCategory := "Subscriptions" } : RawTransaction).amount ≠ 0) :=
  have hmem : ({ details := "Expense", postingDate := "01/05/2025",
                 description := "Netflix", amount := mkRat (-1549) 100,
                 type := "DEBIT", balance := 0, checkOrSlip := none,
                 qbCategory := "Subscriptions" } : RawTransaction) ∈
      parseQuickBooksCSV
        ["Date,Transaction type,Num,Posting,Name,Memo/Description,Account name,Account full name,Amount",
         "01/05/2025,Expense,1,Y,Netflix,Netflix,Subs,Subscriptions,-15.49"] := by
    decide
  ⟨hmem, parseQuickBooksCSV_drops_zero_and_dateless _ _ hmem⟩

/-! ## Vendor normalization (financeUtils.ts, later revision)

The source's regex operations are modelled as structural char-list scanners:
anchored prefix patterns strip at the string head, global patterns are
applied by a left-to-right, non-overlapping, greedy scan — the semantics of
`String.replace` with a `g` regex for these backtracking-free patterns. -/

/-- Consume an exact literal (input already upper-cased where used). -/
def pLit (pat : String) (l : List Char) : Option (List Char) :=
  if pat.data.isPrefixOf l then some (l.drop pat.data.length) else none

/-- Consume optional whitespace (`\s*`). -/
def pWS0 (l : List Char) : Option (List Char) := some (l.dropWhile isWS)

/-- Consume mandatory whitespace (`\s+`). -/
def pWS1 (l : List Char) : Option (List Char) :=
  match l with
  | c :: t => if isWS c then some (t.dropWhile isWS) else none
  | [] => none

/-- Consume an optional single asterisk (`\*?`). -/
def pStar (l : List Char) : Option (List Char) :=
  match l with
  | '*' :: t => some t
  | t => some t

/-- An optional group (`(...)?`). -/
def pOpt (p : List Char → Option (List Char)) (l : List Char) :
    Option (List Char) := some ((p l).getD l)

/-- Sequencing of prefix patterns. -/
def pSeq (p q : List Char → Option (List Char)) (l : List Char) :
    Option (List Char) := (p l).bind q

/-- The 18 anchored payment-processor/noise prefixes of normalizeVendor, in
source order. -/
def noisePatterns : List (List Char → Option (List Char)) :=
  [pSeq (pLit "SQ") (pSeq pWS0 pStar),
   pSeq (pLit "PAYPAL") (pSeq pWS0 pStar),
   pSeq (pLit "VENMO") (pSeq pWS0 pStar),
   pLit "APPLE.COM/BILL",
   pSeq (pLit "APPLE") (pSeq pWS0 (pSeq (pLit "PAY") pWS0)),
   pSeq (pLit "GOOGLE") (pSeq pWS0 pStar),
   pSeq (pLit "AMZN") (pSeq pWS0 (pSeq (pLit "MKTP") pWS0)),
   pSeq (pLit "AMAZON") pWS0,
   pSeq (pLit "TST") (pSeq pWS0 pStar),
   pSeq (pLit "POS") (pSeq pWS1 (pOpt (pSeq (pLit "PURCHASE") pWS1))),
   pSeq (pLit "PURCHASE") pWS1,
   pSeq (pLit "DEBIT") (pSeq pWS1 (pOpt (pSeq (pLit "CARD") pWS1))),
   pSeq (pLit "RECURRING") pWS1,
   pSeq (pLit "ONLINE") (pSeq pWS1 (pOpt (pSeq (pLit "PAYMENT") pWS1))),
   pSeq (pLit "ACH") (pSeq pWS1 (pOpt (pSeq (pLit "DEBIT") pWS1))),
   pSeq (pLit "CHECKCARD") pWS1,
   pSeq (pLit "VISA") pWS1,
   pSeq (pLit "MASTERCARD") pWS1]

/-- Apply each anchored noise pattern in order, each replacing its first
(head-anchored) match with the empty string. -/
def applyNoise (l : List Char) : List Char :=
  noisePatterns.foldl (fun s p => (p s).getD s) l

/-- Require n digits, returning the remainder. -/
def takeNDigits : Nat → List Char → Option (List Char)
  | 0, l => some l
  | _ + 1, [] => none
  | n + 1, c :: t => if c.isDigit then takeNDigits n t else none

/-- Match `\d{2}\/\d{2}(\/\d{2,4})?` at the head, returning the consumed
length. -/
def mDate (l : List Char) : Option Nat :=
  match takeNDigits 2 l with
  | none => none
  | some r1 =>
    match r1 with
    | '/' :: r2 =>
      match takeNDigits 2 r2 with
      | none => none
      | some r3 =>
        match r3 with
        | '/' :: r4 =>
          let ds := (r4.takeWhile Char.isDigit).length
          if 2 ≤ ds then some (l.length - r4.length + 1 + min ds 4 - 1)
          else some (l.length - r3.length)
        | _ => some (l.length - r3.length)
    | _ => none

/-- A `[-.\s]` separator character. -/
def sepChar (c : Char) : Bool := c = '-' || c = '.' || isWS c

/-- Match `\d{3}[-.\s]?\d{3}[-.\s]?\d{4}` at the head. -/
def mPhone (l : List Char) : Option Nat :=
  match takeNDigits 3 l with
  | none => none
  | some r1 =>
    let r1' := match r1 with
      | c :: t => if sepChar c then t else r1
      | [] => r1
    match takeNDigits 3 r1' with
    | none => none
    | some r2 =>
      let r2' := match r2 with
        | c :: t => if sepChar c then t else r2
        | [] => r2
      match takeNDigits 4 r2' with
      | none => none
      | some r3 => some (l.length - r3.length)

/-- Match `\d{6,}` at the head (greedy). -/
def mDigits6 (l : List Char) : Option Nat :=
  let ds := (l.takeWhile Char.isDigit).length
  if 6 ≤ ds then some ds else none

/-- Match `#\d+` at the head. -/
def mHashRef (l : List Char) : Option Nat :=
  match l with
  | '#' :: t =>
    let ds := (t.takeWhile Char.isDigit).length
    if 1 ≤ ds then some (1 + ds) else none
  | _ => none

/-- Match `TRANSACTION#?:?\s*\d*` at the head (input upper-cased). -/
def mTransactionTag (l : List Char) : Option Nat :=
  match pLit "TRANSACTION" l with
  | none => none
  | some r1 =>
    let r2 := match r1 with
      | '#' :: t => t
      | t => t
    let r3 := match r2 with
      | ':' :: t => t
      | t => t
    let r4 := r3.dropWhile isWS
    let r5 := r4.dropWhile Char.isDigit
    some (l.length - r5.length)

/-- Match `\*+` at the head. -/
def mStars (l : List Char) : Option Nat :=
  let n := (l.takeWhile (fun c => c = '*')).length
  if 1 ≤ n then some n else none

/-- Left-to-right, non-overlapping, greedy global replace; the fuel is the
input length, enough because every matcher consumes at least one char. -/
def scanReplace (m : List Char → Option Nat) (repl : List Char) :
    Nat → List Char → List Char
  | 0, l => l
  | _ + 1, [] => []
  | fuel + 1, c :: rest =>
    match m (c :: rest) with
    | some n =>
      if n = 0 then c :: scanReplace m repl fuel rest
      else repl ++ scanReplace m repl fuel ((c :: rest).drop n)
    | none => c :: scanReplace m repl fuel rest

/-- The JS `\w` class (ASCII word char). -/
def isWordChar (c : Char) : Bool := c.isAlphanum || c = '_'

/-- Replace every char outside `[\w\s&'-]` by a space. -/
def punctToSpace (l : List Char) : List Char :=
  l.map (fun c =>
    if isWordChar c || isWS c || c = '&' || c = '\'' || c = '-' then c else ' ')

/-- Collapse whitespace runs to single spaces (`\s+` → one space). -/
def collapseWS : List Char → Bool → List Char
  | [], _ => []
  | c :: r, inRun =>
    if isWS c then
      (if inRun then collapseWS r true else ' ' :: collapseWS r true)
    else c :: collapseWS r false

/-- normalizeVendor of financeUtils.ts: uppercase, strip noise prefixes,
remove dates/phones/long digit runs/reference tags, asterisks and stray
punctuation to spaces, collapse whitespace, keep the first three words of
length > 1, with the source's fallback chain. -/
def normalizeVendor (description : String) : String :=
  let up := (jsUpper description).data
  let s0 := applyNoise up
  let s1 := scanReplace mDate [] s0.length s0
  let s2 := scanReplace mPhone [] s1.length s1
  let s3 := scanReplace mDigits6 [] s2.length s2
  let s4 := scanReplace mHashRef [] s3.length s3
  let s5 := scanReplace mTransactionTag [] s4.length s4
  let s6 := scanReplace mStars [' '] s5.length s5
  let s7 := punctToSpace s6
  let s8 := collapseWS s7 false
  let cleaned := trimChars s8
  let words := ((splitChar ' ' cleaned).filter (fun w => w.length > 1)).take 3
  let joined := List.intercalate [' '] words
  if joined ≠ [] then ⟨joined⟩
  else if cleaned ≠ [] then ⟨cleaned⟩
  else jsUpper description

/-- Case-insensitive literal prefix (pattern upper-case). -/
def ciPrefix : List Char → List Char → Option (List Char)
  | [], l => some l
  | _ :: _, [] => none
  | p :: ps, c :: cs => if c.toUpper = p then ciPrefix ps cs else none

/-- Turn a remainder-style matcher into a consumed-count matcher. -/
def chainCount (f : List Char → Option (List Char)) (l : List Char) :
    Option Nat := (f l).map (fun r => l.length - r.length)

/-- Leftmost match of a consumed-count matcher: index and length. -/
def findMatchAux (m : List Char → Option Nat) :
    List Char → Nat → Option (Nat × Nat)
  | [], i =>
    match m [] with
    | some n => some (i, n)
    | none => none
  | c :: t, i =>
    match m (c :: t) with
    | some n => some (i, n)
    | none => findMatchAux m t (i + 1)

/-- The `tryBetween` helper of extractVendorName: text between the first
start-pattern match and the first end-pattern match after it (or the rest of
the string), trimmed; empty picks are discarded. -/
def tryBetween (mStart mEnd : List Char → Option Nat) (text : List Char) :
    Option (List Char) :=
  match findMatchAux mStart text 0 with
  | none => none
  | some (i, n) =>
    let afterStart := text.drop (i + n)
    let picked :=
      match findMatchAux mEnd afterStart 0 with
      | some (j, _) => afterStart.take j
      | none => afterStart
    let t := trimChars picked
    if t.isEmpty then none else some t

/-- `ORIG\s+CO\s+NAME\s*:` (case-insensitive). -/
def mOrigCoName : List Char → Option Nat :=
  chainCount (fun l => (ciPrefix "ORIG".data l).bind (fun r =>
    (pWS1 r).bind (fun r => (ciPrefix "CO".data r).bind (fun r =>
      (pWS1 r).bind (fun r => (ciPrefix "NAME".data r).bind (fun r =>
        (pWS0 r).bind (fun r => ciPrefix ":".data r)))))))

/-- `\s+ORIG\s+ID\s*:` (case-insensitive). -/
def mEndOrigId : List Char → Option Nat :=
  chainCount (fun l => (pWS1 l).bind (fun r => (ciPrefix "ORIG".data r).bind
    (fun r => (pWS1 r).bind (fun r => (ciPrefix "ID".data r).bind (fun r =>
      (pWS0 r).bind (fun r => ciPrefix ":".data r))))))

/-- `ORIGINATOR\s+NAME\s*:` (case-insensitive). -/
def mOriginatorName : List Char → Option Nat :=
  chainCount (fun l => (ciPrefix "ORIGINATOR".data l).bind (fun r =>
    (pWS1 r).bind (fun r => (ciPrefix "NAME".data r).bind (fun r =>
      (pWS0 r).bind (fun r => ciPrefix ":".data r)))))

/-- `\s+(ORIGINATOR\s+ID|ORIG\s+ID)\s*:` (case-insensitive, first
alternative preferred). -/
def mEndOriginatorId : List Char → Option Nat :=
  chainCount (fun l => (pWS1 l).bind (fun r =>
    (((ciPrefix "ORIGINATOR".data r).bind (fun r2 => (pWS1 r2).bind
        (fun r2 => ciPrefix "ID".data r2))).orElse
      (fun _ => (ciPrefix "ORIG".data r).bind (fun r2 => (pWS1 r2).bind
        (fun r2 => ciPrefix "ID".data r2)))).bind (fun r =>
      (pWS0 r).bind (fun r => ciPrefix ":".data r))))

/-- `COMPANY\s+NAME\s*:` (case-insensitive). -/
def mCompanyName : List Char → Option Nat :=
  chainCount (fun l => (ciPrefix "COMPANY".data l).bind (fun r =>
    (pWS1 r).bind (fun r => (ciPrefix "NAME".data r).bind (fun r =>
      (pWS0 r).bind (fun r => ciPrefix ":".data r)))))

/-- `\s+(COMPANY\s+ID|ORIG\s+ID)\s*:` (case-insensitive). -/
def mEndCompanyId : List Char → Option Nat :=
  chainCount (fun l => (pWS1 l).bind (fun r =>
    (((ciPrefix "COMPANY".data r).bind (fun r2 => (pWS1 r2).bind
        (fun r2 => ciPrefix "ID".data r2))).orElse
      (fun _ => (ciPrefix "ORIG".data r).bind (fun r2 => (pWS1 r2).bind
        (fun r2 => ciPrefix "ID".data r2)))).bind (fun r =>
      (pWS0 r).bind (fun r => ciPrefix ":".data r))))

/-- extractVendorName of financeUtils.ts: prefer an explicit ACH company
name field, fall back to normalizing the whole description. -/
def extractVendorName (description : String) : String :=
  let raw := jsTrim description
  if raw = "" then ""
  else
    let text := raw.data
    let candidates :=
      [tryBetween mOrigCoName mEndOrigId text,
       tryBetween mOriginatorName mEndOriginatorId text,
       tryBetween mCompanyName mEndCompanyId text].filterMap id
    let best := (candidates.map (fun c => trimChars (collapseWS c false))).find?
      (fun c => 2 ≤ c.length)
    normalizeVendor (match best with
      | some b => ⟨b⟩
      | none => ⟨text⟩)

/-- The vendorKey helper of useFinanceCalculations.ts. -/
def vendorKey (vendor : String) : String :=
  jsLower (jsTrim (normalizeVendor vendor))

/-! ## Recurring detection (financeUtils.ts, later revision) -/

/-- Transaction (types/finance.ts): category is kept as its display string. -/
structure Transaction where
  id : String
  date : String
  description : String
  amount : ℚ
  type : String
  isRecurring : Bool
  category : String
  payPeriodImpact : Bool
  runningBalance : ℚ
  originalBalance : ℚ
deriving Repr, DecidableEq

/-- Model of `new Date(s).getTime()` (in days) for the ISO YYYY-MM-DD date
strings the pipeline produces; other strings behave as an invalid date
(`none` standing for NaN). -/
def dateValue (s : String) : Option Int :=
  match isoYMD s with
  | some (y, m, d) =>
    if 1 ≤ m ∧ m ≤ 12 ∧ 1 ≤ d ∧ d ≤ daysInMonth y m then
      some (daysFromCivil y m d)
    else none
  | none => none

/-- Stable insertion sort: an element passes earlier elements only when the
comparator orders them strictly before it, which reproduces the output of
the JS stable `Array.prototype.sort`. -/
def insertSorted {α : Type} (lt : α → α → Bool) (x : α) : List α → List α
  | [] => [x]
  | y :: ys => if lt y x then y :: insertSorted lt x ys else x :: y :: ys

/-- Stable sort by a strict comparator. -/
def stableSort {α : Type} (lt : α → α → Bool) : List α → List α
  | [] => []
  | x :: xs => insertSorted lt x (stableSort lt xs)

/-- Strict date order for the group sort `new Date(a.date) - new
Date(b.date)`; a NaN comparator value is treated as 0 (no reorder). -/
def ltTxDate (a b : Transaction) : Bool :=
  match dateValue a.date, dateValue b.date with
  | some x, some y => decide (x < y)
  | _, _ => false

/-- Successive day gaps between sorted transactions,
`Math.round((t2 - t1) / 86400000)`; day-resolution dates make the rounding
exact.  An invalid date yields NaN in the source; it is modelled as day 0,
and no claim depends on that corner. -/
def txIntervals : List Transaction → List ℚ
  | a :: b :: rest =>
    (((dateValue b.date).getD 0 - (dateValue a.date).getD 0 : Int) : ℚ) ::
      txIntervals (b :: rest)
  | _ => []

/-- checkCadencePattern of financeUtils.ts: median interval against the six
cadence bands, else at least 70% of intervals within 25% of the median. -/
def checkCadencePattern (intervals : List ℚ) : Bool :=
  match intervals with
  | [] => false
  | _ :: _ =>
    let sorted := stableSort (fun a b => decide (a < b)) intervals
    let mid := intervals.length / 2
    let median : ℚ :=
      if intervals.length % 2 ≠ 0 then sorted.getD mid 0
      else (sorted.getD (mid - 1) 0 + sorted.getD mid 0) / 2
    let patterns : List (ℚ × ℚ) :=
      [(5, 9), (12, 16), (25, 35), (55, 65), (85, 100), (350, 380)]
    if patterns.any (fun p => decide (p.1 ≤ median ∧ median ≤ p.2)) then true
    else
      let withinTolerance :=
        intervals.filter (fun i => decide (|i - median| ≤ median * (25 / 100)))
      decide ((withinTolerance.length : ℚ) ≥ (intervals.length : ℚ) * (7 / 10))

/-- The amount-clustering test of detectRecurring: all absolute amounts
within max(20% of the mean, 15) of the mean. -/
def amountsSimilarCheck (txs : List Transaction) : Bool :=
  let amounts := txs.map (fun t => |t.amount|)
  let avgAmount := amounts.foldl (fun a b => a + b) 0 / (amounts.length : ℚ)
  let tolerance := max (avgAmount * (2 / 10)) 15
  amounts.all (fun a => decide (|a - avgAmount| ≤ tolerance))

/-- The per-group recurring verdict of detectRecurring: amounts must
cluster, then the cadence check on the date-sorted successive intervals
decides. -/
def recurringGroupValue (txs : List Transaction) : Bool :=
  let sorted := stableSort ltTxDate txs
  let intervals := txIntervals sorted
  if !amountsSimilarCheck txs then false
  else checkCadencePattern intervals

/-- detectRecurring of financeUtils.ts, written as its sequence of
`recurringMap.set` events: the first pass writes false for every
non-expense and groups expenses by normalized vendor; the second pass writes
false for singleton groups and the group verdict for groups of two or
more. -/
def detectRecurring (transactions : List Transaction) :
    List (String × Bool) :=
  let phase1Writes := transactions.filterMap (fun tx =>
    if tx.amount ≥ 0 then some (tx.id, false) else none)
  let vendorTransactions := buildGroups
    (fun tx => normalizeVendor tx.description)
    (transactions.filter (fun tx => decide (tx.amount < 0))) []
  let phase2Writes := vendorTransactions.bind (fun p =>
    if p.2.length < 2 then p.2.map (fun tx => (tx.id, false))
    else p.2.map (fun tx => (tx.id, recurringGroupValue p.2)))
  writeAll [] (phase1Writes ++ phase2Writes)

theorem find?_unique {α : Type} (l : List α) (p : α → Bool) (x : α)
    (hx : x ∈ l) (hpx : p x = true)
    (huniq : ∀ y ∈ l, p y = true → y = x) : l.find? p = some x := by
  induction l with
  | nil => simp at hx
  | cons h t ih =>
    rcases List.mem_cons.1 hx with rfl | hxt
    · simp [List.find?, hpx]
    · by_cases hph : p h = true
      · have := huniq h (List.mem_cons_self _ _) hph
        subst this
        simp [List.find?, hph]
      · have hph' : p h = false := by simpa using hph
        simp only [List.find?, hph']
        exact ih hxt (fun y hy hpy => huniq y (List.mem_cons_of_mem _ hy) hpy)

theorem id_inj_of_nodup (txs : List Transaction)
    (hids : (txs.map (fun u => u.id)).Nodup) (u t : Transaction)
    (hu : u ∈ txs) (ht : t ∈ txs) (heq : u.id = t.id) : u = t :=
  List.inj_on_of_nodup_map hids hu ht heq

/-- The vendor grouping key of detectRecurring. -/
def recKey (u : Transaction) : String := normalizeVendor u.description

/-- The expense transactions of a list. -/
def expensesOf (txs : List Transaction) : List Transaction :=
  txs.filter (fun u => decide (u.amount < 0))

/-- The normalized-vendor expense group a transaction belongs to. -/
def recGroupOf (txs : List Transaction) (t : Transaction) : List Transaction :=
  (expensesOf txs).filter (fun u => decide (recKey u = recKey t))

/-- The phase-1 write events of detectRecurring (false for non-expenses). -/
def recPhase1 (txs : List Transaction) : List (String × Bool) :=
  txs.filterMap (fun tx => if tx.amount ≥ 0 then some (tx.id, false) else none)

/-- The vendor grouping of detectRecurring. -/
def recGroups (txs : List Transaction) : List (String × List Transaction) :=
  buildGroups recKey (expensesOf txs) []

/-- The phase-2 write events of detectRecurring (per-group verdicts). -/
def recPhase2 (txs : List Transaction) : List (String × Bool) :=
  (recGroups txs).bind (fun p =>
    if p.2.length < 2 then p.2.map (fun tx => (tx.id, false))
    else p.2.map (fun tx => (tx.id, recurringGroupValue p.2)))

theorem detectRecurring_eq_writes (txs : List Transaction) :
    detectRecurring txs = writeAll [] (recPhase1 txs ++ recPhase2 txs) := rfl

theorem recPhase1_entries (txs : List Transaction) (p : String × Bool)
    (hp : p ∈ recPhase1 txs) :
    ∃ u, u ∈ txs ∧ 0 ≤ u.amount ∧ p = (u.id, false) := by
  obtain ⟨u, hu, hval⟩ := List.mem_filterMap.1 hp
  by_cases hge : u.amount ≥ 0
  · rw [if_pos hge] at hval
    exact ⟨u, hu, hge, by injection hval with h; exact h.symm⟩
  · rw [if_neg hge] at hval
    simp at hval

theorem recPhase2_entries (txs : List Transaction) (p : String × Bool)
    (hp : p ∈ recPhase2 txs) :
    ∃ kk gg u, (kk, gg) ∈ recGroups txs ∧ u ∈ gg ∧
      p = (u.id, if gg.length < 2 then false else recurringGroupValue gg) := by
  obtain ⟨q, hq, hval⟩ := List.mem_bind.1 hp
  obtain ⟨kk, gg⟩ := q
  by_cases hlen : gg.length < 2
  · simp only [if_pos hlen] at hval
    obtain ⟨u, hu, rfl⟩ := List.mem_map.1 hval
    exact ⟨kk, gg, u, hq, hu, by rw [if_pos hlen]⟩
  · simp only [if_neg hlen] at hval
    obtain ⟨u, hu, rfl⟩ := List.mem_map.1 hval
    exact ⟨kk, gg, u, hq, hu, by rw [if_neg hlen]⟩

theorem recGroups_member (txs : List Transaction) (kk : String)
    (gg : List Transaction) (u : Transaction)
    (hgmem : (kk, gg) ∈ recGroups txs) (humem : u ∈ gg) :
    u ∈ expensesOf txs ∧ recKey u = kk := by
  have hgg := mem_buildGroups_eq_filter recKey (expensesOf txs) kk gg hgmem
  rw [hgg] at humem
  have h := List.mem_filter.1 humem
  exact ⟨h.1, by simpa using h.2⟩

theorem recGroups_self (txs : List Transaction) (t : Transaction)
    (ht : t ∈ expensesOf txs) :
    (recKey t, recGroupOf txs t) ∈ recGroups txs :=
  group_exists_of_mem recKey (expensesOf txs) t ht

theorem mem_expensesOf (txs : List Transaction) (u : Transaction) :
    u ∈ expensesOf txs ↔ u ∈ txs ∧ u.amount < 0 := by
  unfold expensesOf
  rw [List.mem_filter]
  simp

theorem detectRecurring_lookup_nonexpense (txs : List Transaction)
    (t : Transaction) (hmem : t ∈ txs)
    (hids : (txs.map (fun u => u.id)).Nodup) (hge : 0 ≤ t.amount) :
    lookupA (detectRecurring txs) t.id = some false := by
  rw [detectRecurring_eq_writes, lookupA_writeAll]
  have hnotw2 : ∀ p ∈ (recPhase2 txs).reverse,
      ¬ ((fun p => decide (p.1 = t.id)) p = true) := by
    intro p hp hpt
    rw [List.mem_reverse] at hp
    obtain ⟨kk, gg, u, hgmem, humem, rfl⟩ := recPhase2_entries txs p hp
    simp only [decide_eq_true_eq] at hpt
    obtain ⟨hue, _⟩ := recGroups_member txs kk gg u hgmem humem
    obtain ⟨hutxs, huneg⟩ := (mem_expensesOf txs u).1 hue
    have := id_inj_of_nodup txs hids u t hutxs hmem hpt
    subst this
    linarith
  have hfw2 : (recPhase2 txs).reverse.find? (fun p => decide (p.1 = t.id)) =
      none := List.find?_eq_none.2 hnotw2
  have htin : ((t.id, false) : String × Bool) ∈ recPhase1 txs :=
    List.mem_filterMap.2 ⟨t, hmem, by rw [if_pos hge]⟩
  have hsome : ((recPhase1 txs).reverse.find?
      (fun p => decide (p.1 = t.id))).isSome := by
    rw [List.find?_isSome]
    exact ⟨(t.id, false), List.mem_reverse.2 htin, by simp⟩
  obtain ⟨q, hq⟩ := Option.isSome_iff_exists.1 hsome
  have hqmem : q ∈ recPhase1 txs :=
    List.mem_reverse.1 (List.mem_of_find?_eq_some hq)
  have hqpred := List.find?_some hq
  simp only [decide_eq_true_eq] at hqpred
  obtain ⟨u, _, _, rfl⟩ := recPhase1_entries txs q hqmem
  rw [List.reverse_append, List.find?_append, hfw2]
  simp only [Option.none_or]
  rw [hq]

set_option maxHeartbeats 4000000 in
theorem detectRecurring_lookup_expense (txs : List Transaction)
    (t : Transaction) (hmem : t ∈ txs)
    (hids : (txs.map (fun u => u.id)).Nodup) (hneg : t.amount < 0) :
    lookupA (detectRecurring txs) t.id =
      some (if (recGroupOf txs t).length < 2 then false
        else recurringGroupValue (recGroupOf txs t)) := by
  rw [detectRecurring_eq_writes, lookupA_writeAll]
  have hte : t ∈ expensesOf txs := (mem_expensesOf txs t).2 ⟨hmem, hneg⟩
  have hGt := recGroups_self txs t hte
  have htgT : t ∈ recGroupOf txs t := by
    unfold recGroupOf
    exact List.mem_filter.2 ⟨hte, by simp⟩
  have hinw2 : ((t.id, if (recGroupOf txs t).length < 2 then false
      else recurringGroupValue (recGroupOf txs t)) : String × Bool) ∈
      recPhase2 txs := by
    refine List.mem_bind.2 ⟨(recKey t, recGroupOf txs t), hGt, ?_⟩
    by_cases hlen : (recGroupOf txs t).length < 2
    · simp only [if_pos hlen]
      exact List.mem_map.2 ⟨t, htgT, rfl⟩
    · simp only [if_neg hlen]
      exact List.mem_map.2 ⟨t, htgT, rfl⟩
  have huniq : ∀ p ∈ recPhase2 txs, (fun p => decide (p.1 = t.id)) p = true →
      p = (t.id, if (recGroupOf txs t).length < 2 then false
        else recurringGroupValue (recGroupOf txs t)) := by
    intro p hp hpt
    simp only [decide_eq_true_eq] at hpt
    obtain ⟨kk, gg, u, hgmem, humem, rfl⟩ := recPhase2_entries txs p hp
    obtain ⟨hue, hukey⟩ := recGroups_member txs kk gg u hgmem humem
    have hutxs : u ∈ txs := ((mem_expensesOf txs u).1 hue).1
    have hut : u = t := id_inj_of_nodup txs hids u t hutxs hmem hpt
    subst hut
    have hgg := mem_buildGroups_eq_filter recKey (expensesOf txs) kk gg hgmem
    have h3 : gg = recGroupOf txs u := by
      rw [hgg]
      unfold recGroupOf
      rw [← hukey]
    rw [h3]
  have hnotw1 : ∀ p ∈ (recPhase1 txs).reverse,
      ¬ ((fun p => decide (p.1 = t.id)) p = true) := by
    intro p hp hpt
    rw [List.mem_reverse] at hp
    obtain ⟨u, hutxs, huge, rfl⟩ := recPhase1_entries txs p hp
    simp only [decide_eq_true_eq] at hpt
    have := id_inj_of_nodup txs hids u t hutxs hmem hpt
    subst this
    linarith
  have hfw2 : (recPhase2 txs).reverse.find? (fun p => decide (p.1 = t.id)) =
      some (t.id, if (recGroupOf txs t).length < 2 then false
        else recurringGroupValue (recGroupOf txs t)) := by
    refine find?_unique _ _ _ (List.mem_reverse.2 hinw2) (by simp) ?_
    intro y hy hpy
    exact huniq y (List.mem_reverse.1 hy) hpy
  rw [List.reverse_append, List.find?_append, hfw2]
  rfl

set_option maxHeartbeats 1000000 in
/-- Claim C8: a transaction is marked recurring only if it is an expense in
a 2-or-more-member normalized-vendor expense group whose absolute amounts
cluster within max(20% of the mean, 15 dollars) of the mean and whose
date-sorted successive gaps pass the cadence test (median in a band, or at
least 70% of gaps within 25% of the median); non-expenses and members of
singleton groups always get false, and 2+-member groups get exactly the
group verdict. -/
theorem detectRecurring_characterization (txs : List Transaction)
    (t : Transaction) (hmem : t ∈ txs)
    (hids : (txs.map (fun u => u.id)).Nodup) :
    (0 ≤ t.amount → lookupA (detectRecurring txs) t.id = some false) ∧
    (t.amount < 0 →
      ((recGroupOf txs t).length < 2 →
        lookupA (detectRecurring txs) t.id = some false) ∧
      (2 ≤ (recGroupOf txs t).length →
        lookupA (detectRecurring txs) t.id =
          some (recurringGroupValue (recGroupOf txs t)))) ∧
    (lookupA (detectRecurring txs) t.id = some true →
      t.amount < 0 ∧
      2 ≤ (recGroupOf txs t).length ∧
      amountsSimilarCheck (recGroupOf txs t) = true ∧
      checkCadencePattern (txIntervals (stableSort ltTxDate
        (recGroupOf txs t))) = true) := by
  have hpart1 := detectRecurring_lookup_nonexpense txs t hmem hids
  have hpart2 : t.amount < 0 →
      ((recGroupOf txs t).length < 2 →
        lookupA (detectRecurring txs) t.id = some false) ∧
      (2 ≤ (recGroupOf txs t).length →
        lookupA (detectRecurring txs) t.id =
          some (recurringGroupValue (recGroupOf txs t))) := by
    intro hneg
    have hl := detectRecurring_lookup_expense txs t hmem hids hneg
    constructor
    · intro hlen
      rw [hl, if_pos hlen]
    · intro hlen
      rw [hl, if_neg (by omega)]
  refine ⟨hpart1, hpart2, ?_⟩
  intro htrue
  by_cases hge : 0 ≤ t.amount
  · rw [hpart1 hge] at htrue
    simp at htrue
  · push_neg at hge
    obtain ⟨h2a, h2b⟩ := hpart2 hge
    by_cases hlen : (recGroupOf txs t).length < 2
    · rw [h2a hlen] at htrue
      simp at htrue
    · push_neg at hlen
      have hval := h2b hlen
      rw [hval] at htrue
      have hrv : recurringGroupValue (recGroupOf txs t) = true := by
        injection htrue
      by_cases hs : amountsSimilarCheck (recGroupOf txs t) = true
      · have hcad : checkCadencePattern (txIntervals (stableSort ltTxDate
            (recGroupOf txs t))) = true := by
          rw [recurringGroupValue, hs] at hrv
          simpa using hrv
        exact ⟨hge, hlen, hs, hcad⟩
      · exfalso
        have hs' : amountsSimilarCheck (recGroupOf txs t) = false := by
          simpa using hs
        rw [recurringGroupValue, hs'] at hrv
        simp at hrv

/-- The head transaction of the concrete C8 group. -/
def c8T1 : Transaction :=
  { id := "t1", date := "2025-01-01", description := "ACME",
    amount := mkRat (-4999) 100, type := "DEBIT", isRecurring := false,
    category := "Miscellaneous", payPeriodImpact := false,
    runningBalance := 0, originalBalance := 0 }

/-- A concrete monthly-cadence expense group for exercising C8. -/
def c8Txs : List Transaction :=
  [c8T1,
   { id := "t2", date := "2025-01-30", description := "ACME",
     amount := mkRat (-5099) 100, type := "DEBIT", isRecurring := false,
     category := "Miscellaneous", payPeriodImpact := false,
     runningBalance := 0, originalBalance := 0 },
   { id := "t3", date := "2025-03-02", description := "ACME",
     amount := mkRat (-4899) 100, type := "DEBIT", isRecurring := false,
     category := "Miscellaneous", payPeriodImpact := false,
     runningBalance := 0, originalBalance := 0 },
   { id := "t4", date := "2025-04-01", description := "ACME",
     amount := mkRat (-4999) 100, type := "DEBIT", isRecurring := false,
     category := "Miscellaneous", payPeriodImpact := false,
     runningBalance := 0, originalBalance := 0 }]

/-- Witness for C8 at the four-member monthly ACME group. -/
theorem detectRecurring_characterization_witness :
    (c8T1 ∈ c8Txs) ∧ ((c8Txs.map (fun u => u.id)).Nodup) ∧
      ((0 ≤ c8T1.amount →
          lookupA (detectRecurring c8Txs) c8T1.id = some false) ∧
        (c8T1.amount < 0 →
          ((recGroupOf c8Txs c8T1).length < 2 →
            lookupA (detectRecurring c8Txs) c8T1.id = some false) ∧
          (2 ≤ (recGroupOf c8Txs c8T1).length →
            lookupA (detectRecurring c8Txs) c8T1.id =
              some (recurringGroupValue (recGroupOf c8Txs c8T1)))) ∧
        (lookupA (detectRecurring c8Txs) c8T1.id = some true →
          c8T1.amount < 0 ∧
          2 ≤ (recGroupOf c8Txs c8T1).length ∧
          amountsSimilarCheck (recGroupOf c8Txs c8T1) = true ∧
          checkCadencePattern (txIntervals (stableSort ltTxDate
            (recGroupOf c8Txs c8T1))) = true)) :=
  ⟨by decide, by decide,
    detectRecurring_characterization c8Txs c8T1 (by decide) (by decide)⟩

/-! ## Bill resolution (useFinanceCalculations.ts, later revision) -/

/-- Bill (types/bills.ts is not among the sources; the shape is fixed by its
uses in the hooks and by the spec's data model: vendor, amount, dueDay,
category, active flag, recurring/one-time type). -/
structure Bill where
  id : String
  vendor : String
  amount : ℚ
  dueDay : Int
  category : String
  active : Bool
  type : String
deriving Repr, DecidableEq

/-- isExpenseTx of useFinanceCalculations.ts: negative amount, or positive
amount with a type label containing "debit". -/
def isExpenseTx (tx : Transaction) : Bool :=
  decide (tx.amount < 0) ||
    (decide (tx.amount > 0) && strIncludes (jsLower tx.type) "debit")

/-- The current-month expense filter of resolveBillsFromTransactions, with
the reference month passed explicitly (y, m 0-based).  Month bounds are the
1st and the last day of the month; an unparseable transaction date compares
as NaN and is excluded. -/
def currentMonthExpenses (y m : Int) (transactions : List Transaction) :
    List Transaction :=
  transactions.filter (fun tx =>
    match dateValue tx.date with
    | some e =>
      decide (jsMkDate y m 1 ≤ e) && decide (e ≤ jsMkDate y (m + 1) 0) &&
        isExpenseTx tx
    | none => false)

/-- The vendor key a transaction is grouped under:
`vendorKey(extractVendorName(tx.description) || tx.description)`. -/
def txVendorKeyOf (tx : Transaction) : String :=
  vendorKey (if extractVendorName tx.description = "" then tx.description
    else extractVendorName tx.description)

/-- The group of current-month expense transactions sharing the bill's
vendor key. -/
def matchingTxsFor (y m : Int) (bill : Bill)
    (transactions : List Transaction) : List Transaction :=
  (lookupA (buildGroups txVendorKeyOf (currentMonthExpenses y m transactions) [])
    (vendorKey bill.vendor)).getD []

/-- The amount distance minimized by the matcher:
`Math.abs(Math.abs(tx.amount) - bill.amount)`. -/
def billDiff (bill : Bill) (tx : Transaction) : ℚ := |(|tx.amount| - bill.amount)|

/-- One step of the best-match fold (`diff < bestDiff` replaces, so ties
keep the earlier transaction; the initial Infinity is the `none` state). -/
def bestStep (bill : Bill) (acc : Option (Transaction × ℚ))
    (tx : Transaction) : Option (Transaction × ℚ) :=
  match acc with
  | none => some (tx, billDiff bill tx)
  | some (b, bd) =>
    if billDiff bill tx < bd then some (tx, billDiff bill tx) else some (b, bd)

/-- The best-match fold of resolveBillsFromTransactions. -/
def bestMatchFold (bill : Bill) (txs : List Transaction) :
    Option (Transaction × ℚ) :=
  txs.foldl (bestStep bill) none

/-- The per-bill resolution status (one iteration of the bills loop). -/
def resolveBill (y m : Int) (bill : Bill)
    (transactions : List Transaction) : BillResolutionStatus :=
  let bestMatch := bestMatchFold bill (matchingTxsFor y m bill transactions)
  { billId := bill.id,
    isResolved := bestMatch.isSome,
    matchingTransactionId := bestMatch.map (fun b => b.1.id),
    matchingTransactionDate := bestMatch.map (fun b => b.1.date),
    matchingTransactionAmount := bestMatch.map (fun b => |b.1.amount|) }

/-- resolveBillsFromTransactions of useFinanceCalculations.ts: the status
map as its insertion sequence, skipping inactive bills. -/
def resolveBillsFromTransactions (y m : Int) (bills : List Bill)
    (transactions : List Transaction) :
    List (String × BillResolutionStatus) :=
  bills.filterMap (fun bill =>
    if !bill.active then none
    else some (bill.id, resolveBill y m bill transactions))

theorem bestMatchFold_go (bill : Bill) :
    ∀ (txs : List Transaction) (b : Transaction) (bd : ℚ),
    bd = billDiff bill b →
    ∃ t d, txs.foldl (bestStep bill) (some (b, bd)) = some (t, d) ∧
      d = billDiff bill t ∧ (∀ u ∈ txs, d ≤ billDiff bill u) ∧ d ≤ bd ∧
      (t = b ∨ (d < bd ∧ ∃ l₁ l₂, txs = l₁ ++ t :: l₂ ∧
        ∀ u ∈ l₁, d < billDiff bill u)) := by
  intro txs
  induction txs with
  | nil =>
    intro b bd hbd
    exact ⟨b, bd, rfl, hbd, by simp, le_refl bd, Or.inl rfl⟩
  | cons x xs ih =>
    intro b bd hbd
    by_cases hx : billDiff bill x < bd
    · have hstep : (x :: xs).foldl (bestStep bill) (some (b, bd)) =
          xs.foldl (bestStep bill) (some (x, billDiff bill x)) := by
        simp [List.foldl_cons, bestStep, hx]
      obtain ⟨t, d, hfold, hd, hall, hdle, hcase⟩ :=
        ih x (billDiff bill x) rfl
      refine ⟨t, d, by rw [hstep]; exact hfold, hd, ?_, by linarith, ?_⟩
      · intro u hu
        rcases List.mem_cons.1 hu with rfl | hu2
        · exact hdle
        · exact hall u hu2
      · rcases hcase with rfl | ⟨hlt, l₁, l₂, hsplit, hpre⟩
        · exact Or.inr ⟨by linarith, [], xs, by simp, by simp⟩
        · refine Or.inr ⟨by linarith, x :: l₁, l₂, by simp [hsplit], ?_⟩
          intro u hu
          rcases List.mem_cons.1 hu with rfl | hu2
          · linarith
          · exact hpre u hu2
    · have hstep : (x :: xs).foldl (bestStep bill) (some (b, bd)) =
          xs.foldl (bestStep bill) (some (b, bd)) := by
        simp [List.foldl_cons, bestStep, hx]
      obtain ⟨t, d, hfold, hd, hall, hdle, hcase⟩ := ih b bd hbd
      push_neg at hx
      refine ⟨t, d, by rw [hstep]; exact hfold, hd, ?_, hdle, ?_⟩
      · intro u hu
        rcases List.mem_cons.1 hu with rfl | hu2
        · linarith
        · exact hall u hu2
      · rcases hcase with rfl | ⟨hlt, l₁, l₂, hsplit, hpre⟩
        · exact Or.inl rfl
        · refine Or.inr ⟨hlt, x :: l₁, l₂, by simp [hsplit], ?_⟩
          intro u hu
          rcases List.mem_cons.1 hu with rfl | hu2
          · linarith
          · exact hpre u hu2

theorem bestMatchFold_spec (bill : Bill) (txs : List Transaction)
    (hne : txs ≠ []) :
    ∃ t d l₁ l₂, bestMatchFold bill txs = some (t, d) ∧
      d = billDiff bill t ∧ txs = l₁ ++ t :: l₂ ∧
      (∀ u ∈ txs, d ≤ billDiff bill u) ∧
      (∀ u ∈ l₁, d < billDiff bill u) := by
  obtain ⟨x, xs, rfl⟩ := List.exists_cons_of_ne_nil hne
  have hfirst : bestMatchFold bill (x :: xs) =
      xs.foldl (bestStep bill) (some (x, billDiff bill x)) := by
    simp [bestMatchFold, List.foldl_cons, bestStep]
  obtain ⟨t, d, hfold, hd, hall, hdle, hcase⟩ :=
    bestMatchFold_go bill xs x (billDiff bill x) rfl
  rcases hcase with rfl | ⟨hlt, l₁, l₂, hsplit, hpre⟩
  · refine ⟨t, d, [], xs, by rw [hfirst]; exact hfold, hd, by simp, ?_, by simp⟩
    intro u hu
    rcases List.mem_cons.1 hu with rfl | hu2
    · exact hdle
    · exact hall u hu2
  · refine ⟨t, d, x :: l₁, l₂, by rw [hfirst]; exact hfold, hd,
      by simp [hsplit], ?_, ?_⟩
    · intro u hu
      rcases List.mem_cons.1 hu with rfl | hu2
      · linarith
      · exact hall u hu2
    · intro u hu
      rcases List.mem_cons.1 hu with rfl | hu2
      · linarith
      · exact hpre u hu2

/-- Claim C9: each active bill's status, computed from the bill and the
transactions alone, appears in the result map (independence from other
bills); an empty same-key group leaves the bill unresolved; a nonempty
group resolves the bill to a transaction of the group minimizing
|abs(amount) - bill.amount|, with exact ties broken in favor of the first
transaction in input order (the chosen one is strictly closer than every
earlier group member). -/
theorem resolveBills_matcher (y m : Int) (bills : List Bill)
    (transactions : List Transaction) (bill : Bill) (hb : bill ∈ bills)
    (hactive : bill.active = true) :
    ((bill.id, resolveBill y m bill transactions) ∈
      resolveBillsFromTransactions y m bills transactions) ∧
    (matchingTxsFor y m bill transactions = [] →
      (resolveBill y m bill transactions).isResolved = false) ∧
    (matchingTxsFor y m bill transactions ≠ [] →
      ∃ t l₁ l₂, matchingTxsFor y m bill transactions = l₁ ++ t :: l₂ ∧
        (resolveBill y m bill transactions).isResolved = true ∧
        (resolveBill y m bill transactions).matchingTransactionId =
          some t.id ∧
        (resolveBill y m bill transactions).matchingTransactionAmount =
          some |t.amount| ∧
        (∀ u ∈ matchingTxsFor y m bill transactions,
          billDiff bill t ≤ billDiff bill u) ∧
        (∀ u ∈ l₁, billDiff bill t < billDiff bill u)) := by
  refine ⟨?_, ?_, ?_⟩
  · unfold resolveBillsFromTransactions
    refine List.mem_filterMap.2 ⟨bill, hb, ?_⟩
    rw [hactive]
    rfl
  · intro hempty
    unfold resolveBill
    rw [hempty]
    rfl
  · intro hne
    obtain ⟨t, d, l₁, l₂, hfold, hd, hsplit, hall, hpre⟩ :=
      bestMatchFold_spec bill (matchingTxsFor y m bill transactions) hne
    refine ⟨t, l₁, l₂, hsplit, ?_, ?_, ?_, ?_, ?_⟩
    · unfold resolveBill
      rw [hfold]
      rfl
    · unfold resolveBill
      rw [hfold]
      rfl
    · unfold resolveBill
      rw [hfold]
      rfl
    · intro u hu
      rw [← hd]
      exact hall u hu
    · intro u hu
      rw [← hd]
      exact hpre u hu

def c9Bill : Bill :=
  { id := "b1", vendor := "Netflix", amount := mkRat 1549 100, dueDay := 5,
    category := "Software & Subscriptions", active := true, type := "recurring" }

def c9Txs : List Transaction :=
  [{ id := "t1", date := "2025-01-05", description := "NETFLIX.COM",
     amount := mkRat (-1549) 100, type := "debit", isRecurring := false,
     category := "", payPeriodImpact := false, runningBalance := 0,
     originalBalance := 0 }]

theorem resolveBills_matcher_witness :
    c9Bill ∈ [c9Bill] ∧ c9Bill.active = true ∧
    ((c9Bill.id, resolveBill 2025 0 c9Bill c9Txs) ∈
      resolveBillsFromTransactions 2025 0 [c9Bill] c9Txs) :=
  ⟨by decide, by decide,
    (resolveBills_matcher 2025 0 [c9Bill] c9Txs c9Bill (by decide)
      (by decide)).1⟩

/-! ## processTransactions (financeUtils.ts, later revision)

Numbers are ℚ, dates epoch days, strings structural char lists as above.
`localeCompare` (host-collation dependent) is modelled as code-point order;
the properties proved below hold for any fixed total comparison. -/

/-- Three-way code-point comparison of char lists (model of
`String.prototype.localeCompare`). -/
def strCmp : List Char → List Char → Int
  | [], [] => 0
  | [], _ :: _ => -1
  | _ :: _, [] => 1
  | a :: as, b :: bs =>
    if a.toNat < b.toNat then -1
    else if b.toNat < a.toNat then 1
    else strCmp as bs

/-- Decimal digits of n, most significant first (fuel n + 1 always
suffices, so the rendering is exact for every n). -/
def natDigitsAux : Nat → Nat → List Char
  | 0, _ => []
  | fuel + 1, n =>
    if n = 0 then [] else natDigitsAux fuel (n / 10) ++ [Char.ofNat (48 + n % 10)]

/-- JS `String(n)` for a nonnegative integer. -/
def natToString (n : Nat) : String :=
  if n = 0 then "0" else ⟨natDigitsAux (n + 1) n⟩

/-- JS `String(i)` for an integer. -/
def intToString (i : Int) : String :=
  if i < 0 then "-" ++ natToString i.natAbs else natToString i.natAbs

/-- Base-36 digit: 0-9 then a-z. -/
def base36Digit (d : Nat) : Char :=
  if d < 10 then Char.ofNat (48 + d) else Char.ofNat (87 + d)

/-- Base-36 digits of n, most significant first. -/
def natBase36Aux : Nat → Nat → List Char
  | 0, _ => []
  | fuel + 1, n =>
    if n = 0 then [] else natBase36Aux fuel (n / 36) ++ [base36Digit (n % 36)]

/-- JS `Number.prototype.toString(36)` for a nonnegative integer. -/
def natToBase36 (n : Nat) : String :=
  if n = 0 then "0" else ⟨natBase36Aux (n + 1) n⟩

/-- Bitwise xor of the low `fuel` bits (the call sites use 32-bit
operands, so `xorBits 32` is the exact 32-bit xor). -/
def xorBits : Nat → Nat → Nat → Nat
  | 0, _, _ => 0
  | fuel + 1, a, b =>
    (if a % 2 = b % 2 then 0 else 1) + 2 * xorBits fuel (a / 2) (b / 2)

/-- Rounding of a nonnegative integer to 53 significant bits, ties to even:
the value of an integer-valued float64 product.  Exact below 2^53; the one
call site (`fnvStep`) feeds products below 2^57, covered by the four
truncation branches. -/
def f64round (n : Nat) : Nat :=
  if n < 2 ^ 53 then n
  else
    let e : Nat :=
      if n < 2 ^ 54 then 1 else if n < 2 ^ 55 then 2
      else if n < 2 ^ 56 then 3 else 4
    let q := n / 2 ^ e
    let r := n % 2 ^ e
    if 2 ^ (e - 1) < r ∨ (r = 2 ^ (e - 1) ∧ q % 2 = 1) then (q + 1) * 2 ^ e
    else q * 2 ^ e

/-- `charCodeAt` of a char (UTF-16 code unit; the bank data is BMP text,
where this is the code point). -/
def charCode (c : Char) : Nat := c.toNat

/-- One step of the fnv1a32 loop of processTransactions:
`hash ^= code; hash = (hash * 0x01000193) >>> 0`.  The running hash is kept
as its unsigned 32-bit pattern; `^` works on the pattern, the JS `*` is a
float64 multiply of the signed value (exact product below 2^57, rounded to
53 bits), and `>>> 0` is the value modulo 2^32. -/
def fnvStep (h code : Nat) : Nat :=
  let h2 := xorBits 32 h code
  let v : Int := if h2 < 2 ^ 31 then (h2 : Int) else (h2 : Int) - 2 ^ 32
  let p := v * 16777619
  let r : Int := if p < 0 then -(f64round p.natAbs : Int) else (f64round p.natAbs : Int)
  (r % 2 ^ 32).toNat

/-- fnv1a32 of processTransactions (seed 0x811c9dc5). -/
def fnv1a32 (s : String) : Nat :=
  s.data.foldl (fun h c => fnvStep h (charCode c)) 0x811c9dc5

/-- JS template rendering `${q}` of an amount.  The host prints the
shortest decimal of the float; over ℚ this is modelled as a fixed
deterministic rendering (integers as decimal, otherwise num/den), which is
all the determinism and purity properties below depend on. -/
def ratRepr (q : ℚ) : String :=
  if q.den = 1 then intToString q.num
  else intToString q.num ++ "/" ++ natToString q.den

/-- parseDate of financeUtils.ts.  `cent` is
`Math.floor(new Date().getFullYear() / 100) * 100`, the only
time-of-run-dependent input, passed explicitly. -/
def parseDate (cent : Int) (dateStr : String) : String :=
  match jsSplit '/' dateStr with
  | [p0, p1, p2] =>
    let month := pad2 p0
    let day := pad2 p1
    let year : String :=
      if p2.data.length = 2 then
        match jsParseInt p2 with
        | some n => intToString (cent + n)
        | none => "NaN"
      else p2
    year ++ "-" ++ month ++ "-" ++ day
  | _ => dateStr

/-- Does the date string hit parseDate's 2-digit-year branch (three
slash-separated parts, third of length 2)? -/
def hasTwoDigitYearDate (s : String) : Bool :=
  match jsSplit '/' s with
  | [_, _, p2] => decide (p2.data.length = 2)
  | _ => false

theorem parseDate_cent_congr (cent cent' : Int) (s : String)
    (h : hasTwoDigitYearDate s = false) :
    parseDate cent s = parseDate cent' s := by
  unfold hasTwoDigitYearDate at h
  unfold parseDate
  rcases hsp : jsSplit '/' s with _ | ⟨a, _ | ⟨b, _ | ⟨c, _ | r⟩⟩⟩ <;>
    rw [hsp] at h <;> simp at h ⊢
  rw [if_neg h, if_neg h]

/-- The shapes of regular expression used by categoryPatterns: a literal
substring, two literals separated by `.*`, or a literal followed by a
whitespace character (`ta\s`).  All patterns carry the `i` flag; the
haystack is lowercased before testing, so literals are stored lowercase. -/
inductive RePat where
  | lit (s : String)
  | gap (a b : String)
  | litws (s : String)
deriving Repr, DecidableEq

/-- Test of `/a.*b/`: some occurrence of a is followed, at or after its
end, by an occurrence of b. -/
def gapTest (a b : List Char) : List Char → Bool
  | [] => a.isEmpty && b.isEmpty
  | h :: t =>
    (a.isPrefixOf (h :: t) && containsSub ((h :: t).drop a.length) b) ||
      gapTest a b t

/-- Test of `/s\s/`: the literal followed by a whitespace character. -/
def litwsTest (s : List Char) : List Char → Bool
  | [] => false
  | h :: t =>
    (s.isPrefixOf (h :: t) &&
      (match (h :: t).drop s.length with
        | c :: _ => isWS c
        | [] => false)) ||
      litwsTest s t

/-- `RegExp.prototype.test` for the pattern shapes above. -/
def reTest (p : RePat) (hay : List Char) : Bool :=
  match p with
  | .lit s => containsSub hay s.data
  | .gap a b => gapTest a.data b.data hay
  | .litws s => litwsTest s.data hay

/-- The categoryPatterns table of financeUtils.ts, in insertion order. -/
def categoryPatterns : List (String × List RePat) :=
  [("Gas", [.lit "valero", .lit "shell", .lit "exxon", .lit "chevron",
    .lit "fuel", .lit "gas", .lit "pilot", .litws "ta", .lit "loves",
    .lit "petro", .lit "fuel maxx"]),
   ("Travel", [.lit "hotel", .lit "airline", .lit "southwest", .lit "delta",
    .lit "united", .lit "marriott", .lit "hilton", .lit "uber", .lit "lyft",
    .lit "travel"]),
   ("Legal & Accounting", [.lit "legalzoom", .lit "attorney", .lit "lawyer",
    .lit "accountant", .lit "cpa", .lit "legal"]),
   ("Office Supplies", [.lit "office depot", .lit "staples", .lit "customink",
    .lit "office supplies"]),
   ("Software", [.lit "github", .lit "adobe", .lit "microsoft", .lit "zoom",
    .lit "slack", .lit "aws", .lit "heroku", .lit "front.com", .lit "cargado",
    .gap "dun" "bradstreet", .lit "software"]),
   ("Repairs & Maintenance", [.lit "repair", .lit "maintenance",
    .lit "maid sense", .lit "mechanic", .lit "service"]),
   ("Postage", [.lit "usps", .lit "ups", .lit "fedex", .lit "postal",
    .lit "postage", .lit "shipping"]),
   ("Taxes & Registration", [.gap "revenue" "department", .lit "irs",
    .lit "tax", .gap "state" "tax", .lit "registration", .lit "bonfire"]),
   ("Insurance", [.lit "insurance", .lit "geico", .lit "allstate",
    .lit "progressive", .lit "state farm", .lit "hendersh"]),
   ("Subscriptions", [.lit "spotify", .lit "netflix", .lit "hulu",
    .lit "apple", .gap "google" "storage", .lit "dialpad", .lit "cloudflare",
    .lit "squarespace", .lit "sqsp", .lit "lovable", .lit "audible"]),
   ("Sales", [.lit "invoice", .gap "payment" "received",
    .lit "margin freight"]),
   ("Owner\x27s Contribution", [.gap "owner" "contribution",
    .gap "capital" "contribution"]),
   ("Owner\x27s Distribution", [.gap "owner" "distribution", .lit "draw",
    .lit "personal"]),
   ("Transfers", [.lit "transfer", .lit "xfer", .lit "acct_xfer",
    .lit "zelle", .lit "venmo", .lit "paypal", .lit "payment thank you",
    .lit "credit card payment"]),
   ("Fees", [.lit "fee", .lit "charge", .lit "overdraft", .lit "nsf",
    .lit "service charge"]),
   ("Miscellaneous", [])]

/-- The QuickBooks account-name mapping chain at the top of
categorizeTransaction; `none` when no rule fires (execution then falls
through to the description-based logic). -/
def qbCategoryOf (q : String) : Option String :=
  if strIncludes q "gas" || strIncludes q "fuel" || strIncludes q "diesel" then
    some "Gas"
  else if strIncludes q "travel" || strIncludes q "lodging" ||
      strIncludes q "hotel" || strIncludes q "meals" then some "Travel"
  else if strIncludes q "legal" || strIncludes q "accounting" ||
      strIncludes q "professional" || strIncludes q "attorney" then
    some "Legal & Accounting"
  else if strIncludes q "office" || strIncludes q "supplies" ||
      strIncludes q "equipment" then some "Office Supplies"
  else if strIncludes q "software" || strIncludes q "computer" ||
      strIncludes q "technology" || strIncludes q "internet" then
    some "Software"
  else if strIncludes q "repair" || strIncludes q "maintenance" ||
      strIncludes q "truck" || strIncludes q "vehicle" then
    some "Repairs & Maintenance"
  else if strIncludes q "postage" || strIncludes q "shipping" ||
      strIncludes q "freight" || strIncludes q "delivery" then some "Postage"
  else if strIncludes q "tax" || strIncludes q "license" ||
      strIncludes q "registration" || strIncludes q "permit" then
    some "Taxes & Registration"
  else if strIncludes q "insurance" || strIncludes q "liability" ||
      strIncludes q "cargo" then some "Insurance"
  else if strIncludes q "subscription" || strIncludes q "dues" ||
      strIncludes q "membership" then some "Subscriptions"
  else if strIncludes q "sales" || strIncludes q "income" ||
      strIncludes q "revenue" || strIncludes q "accounts receivable" then
    some "Sales"
  else if strIncludes q "owner\x27s contribution" ||
      strIncludes q "capital contribution" ||
      strIncludes q "owner contribution" then some "Owner\x27s Contribution"
  else if strIncludes q "owner\x27s distribution" || strIncludes q "draw" ||
      strIncludes q "distribution" || strIncludes q "shareholder" then
    some "Owner\x27s Distribution"
  else if strIncludes q "transfer" || strIncludes q "due from" ||
      strIncludes q "due to" || strIncludes q "checking" ||
      strIncludes q "savings" then some "Transfers"
  else if strIncludes q "fee" || strIncludes q "bank charge" ||
      strIncludes q "service charge" then some "Fees"
  else none

/-- The `Object.entries(categoryPatterns)` loop of categorizeTransaction,
skipping Sales and Miscellaneous: first category with a matching pattern. -/
def firstMatching (cleanDesc : List Char) :
    List (String × List RePat) → Option String
  | [] => none
  | (name, ps) :: rest =>
    if name = "Sales" ∨ name = "Miscellaneous" then
      firstMatching cleanDesc rest
    else if ps.any (fun p => reTest p cleanDesc) then some name
    else firstMatching cleanDesc rest

/-- categorizeTransaction of financeUtils.ts (later revision).  An absent
qbCategory is the empty string (falsy); the early returns are written as a
nested conditional. -/
def categorizeTransaction (description type : String) (amount : ℚ)
    (qbCategory : String) : String :=
  match (if qbCategory ≠ "" then qbCategoryOf (jsLower qbCategory) else none) with
  | some c => c
  | none =>
    let cleanDesc := lowerChars description.data
    let tl := jsLower type
    if (decide (0 < amount) || strIncludes tl "credit") &&
        ((lookupA categoryPatterns "Sales").getD []).any
          (fun p => reTest p cleanDesc) then "Sales"
    else if (decide (0 < amount) || strIncludes tl "credit") &&
        (strIncludes tl "credit" || strIncludes tl "ach_credit" ||
          strIncludes tl "deposit") then "Sales"
    else if strIncludes tl "xfer" || strIncludes tl "transfer" then
      "Transfers"
    else
      match firstMatching cleanDesc categoryPatterns with
      | some c => c
      | none => "Miscellaneous"

/-- getPayPeriods of financeUtils.ts (later revision), as
(cutoff, calculation, payment) epoch-day triples; m is the 0-based month. -/
def getPayPeriods (y m : Int) : List (Int × Int × Int) :=
  [(jsMkDate y m 15, getNthBusinessDayAfter (jsMkDate y m 15) 1,
    getNthBusinessDayAfter (jsMkDate y m 15) 4),
   (jsMkDate y (m + 1) 0, getNthBusinessDayAfter (jsMkDate y (m + 1) 0) 1,
    getNthBusinessDayAfter (jsMkDate y (m + 1) 0) 4)]

/-- determinePayPeriodImpact of financeUtils.ts: true when the date falls
in [payment of a period, next cutoff).  Invalid dates make every comparison
NaN-false in the source, hence `false` here; dates are the ISO strings
parseDate produces, modelled day-granular as elsewhere. -/
def determinePayPeriodImpact (dateStr : String) : Bool :=
  match isoYMD dateStr with
  | some (y, m, d) =>
    if 1 ≤ m ∧ m ≤ 12 ∧ 1 ≤ d ∧ d ≤ daysInMonth y m then
      let e := daysFromCivil y m d
      match getPayPeriods y (m - 1) with
      | [(_, _, p1), (c2, _, p2)] =>
        decide ((p1 ≤ e ∧ e < c2) ∨ (p2 ≤ e ∧ e < jsMkDate y m 15))
      | _ => false
    else false
  | none => false

/-- The sort comparator of processTransactions as a strict order:
date descending via `new Date(parseDate(...)).getTime()` (getTime is a
strictly monotone affine image of the epoch day, so `!==` and sign agree
with the day comparison), then description, amount descending, type.  When
either date is invalid the comparator returns NaN, which Array.prototype.sort
treats as 0, so no reordering: `false` here. -/
def ltRaw (cent : Int) (a b : RawTransaction) : Bool :=
  match dateValue (parseDate cent a.postingDate),
      dateValue (parseDate cent b.postingDate) with
  | some da, some db =>
    if da ≠ db then decide (db < da)
    else
      let dc := strCmp (lowerChars a.description.data) (lowerChars b.description.data)
      if dc ≠ 0 then decide (dc < 0)
      else if a.amount ≠ b.amount then decide (b.amount < a.amount)
      else decide (strCmp (lowerChars a.type.data) (lowerChars b.type.data) < 0)
  | _, _ => false

/-- The deterministic base key
`${date}|${amount}|${type}|${desc}|${qb}` shared by makeStableTxId and
the occurrence counter (`Number(x) || 0` is the identity here: ℚ has no
NaN and 0 maps to 0). -/
def baseKeyOf (cent : Int) (r : RawTransaction) : String :=
  parseDate cent r.postingDate ++ "|" ++ ratRepr r.amount ++ "|" ++
    jsLower (jsTrim r.type) ++ "|" ++ jsLower (jsTrim r.description) ++ "|" ++
    jsLower (jsTrim r.qbCategory)

/-- makeStableTxId of processTransactions:
`tx_` ++ base-36 fnv1a32 of the base key extended with `|#occurrence`. -/
def makeStableTxId (cent : Int) (r : RawTransaction) (occurrence : Nat) : String :=
  "tx_" ++ natToBase36 (fnv1a32 (baseKeyOf cent r ++ "|#" ++ natToString occurrence))

/-- The `sorted.map` body of processTransactions with its occurrenceCounter
Map, as a state-passing recursion: each record is numbered among the
records sharing its base key seen so far and becomes a Transaction. -/
def assignIds (cent : Int) : List RawTransaction → List (String × Nat) →
    List Transaction
  | [], _ => []
  | r :: rest, ctr =>
    let k := baseKeyOf cent r
    let occ := (lookupA ctr k).getD 0 + 1
    { id := makeStableTxId cent r occ,
      date := parseDate cent r.postingDate,
      description := r.description,
      amount := r.amount,
      type := r.type,
      isRecurring := false,
      category := categorizeTransaction r.description r.type r.amount r.qbCategory,
      payPeriodImpact := determinePayPeriodImpact (parseDate cent r.postingDate),
      runningBalance := 0,
      originalBalance := r.balance } :: assignIds cent rest (setA ctr k occ)

/-- The chronological running-balance pass of processTransactions:
`balance += tx.amount; tx.runningBalance = balance` over the reversed
list. -/
def applyRunning (balance : ℚ) : List Transaction → List Transaction
  | [] => []
  | tx :: rest =>
    { tx with runningBalance := balance + tx.amount } ::
      applyRunning (balance + tx.amount) rest

/-- processTransactions of financeUtils.ts (later revision): stable sort by
the comparator, deterministic ids with duplicate ordinals, recurring flags
from detectRecurring, then running balances oldest-to-newest (the source
mutates the shared array through its reversed copy and returns the
newest-first array, hence the final un-reverse). -/
def processTransactions (cent : Int) (raw : List RawTransaction)
    (startingBalance : ℚ) : List Transaction :=
  let sorted := stableSort (ltRaw cent) raw
  let transactions := assignIds cent sorted []
  let transactions2 := transactions.map (fun tx =>
    { tx with isRecurring := (lookupA (detectRecurring transactions) tx.id).getD false })
  (applyRunning startingBalance transactions2.reverse).reverse

/-- Default Transaction used as the out-of-range value of `List.getD`. -/
def defTx : Transaction :=
  { id := "", date := "", description := "", amount := 0, type := "",
    isRecurring := false, category := "", payPeriodImpact := false,
    runningBalance := 0, originalBalance := 0 }

/-- Default RawTransaction used as the out-of-range value of `List.getD`. -/
def defRaw : RawTransaction :=
  { details := "", postingDate := "", description := "", amount := 0,
    type := "", balance := 0, checkOrSlip := none, qbCategory := "" }

theorem mem_insertSorted {α : Type} (lt : α → α → Bool) (x a : α) :
    ∀ l : List α, a ∈ insertSorted lt x l ↔ a = x ∨ a ∈ l := by
  intro l
  induction l with
  | nil => simp [insertSorted]
  | cons y ys ih =>
    by_cases h : lt y x = true
    · simp [insertSorted, h, ih]
      try tauto
    · simp [insertSorted, h]
      try tauto

theorem mem_stableSort {α : Type} (lt : α → α → Bool) (a : α) :
    ∀ l : List α, a ∈ stableSort lt l ↔ a ∈ l := by
  intro l
  induction l with
  | nil => simp [stableSort]
  | cons x xs ih => simp [stableSort, mem_insertSorted, ih]

theorem insertSorted_congr {α : Type} (lt lt' : α → α → Bool) (x : α) :
    ∀ l : List α, (∀ y ∈ l, lt y x = lt' y x) →
    insertSorted lt x l = insertSorted lt' x l := by
  intro l
  induction l with
  | nil => intro _; rfl
  | cons y ys ih =>
    intro h
    have hy := h y (List.mem_cons_self y ys)
    simp only [insertSorted]
    rw [← hy]
    by_cases hc : lt y x = true
    · rw [if_pos hc, if_pos hc,
        ih (fun z hz => h z (List.mem_cons_of_mem y hz))]
    · rw [if_neg hc, if_neg hc]

theorem stableSort_congr {α : Type} (lt lt' : α → α → Bool) :
    ∀ l : List α, (∀ a ∈ l, ∀ b ∈ l, lt a b = lt' a b) →
    stableSort lt l = stableSort lt' l := by
  intro l
  induction l with
  | nil => intro _; rfl
  | cons x xs ih =>
    intro h
    simp only [stableSort]
    rw [ih (fun a ha b hb =>
      h a (List.mem_cons_of_mem x ha) b (List.mem_cons_of_mem x hb))]
    exact insertSorted_congr lt lt' x (stableSort lt' xs) (fun y hy =>
      h y (List.mem_cons_of_mem x ((mem_stableSort lt' y xs).1 hy)) x
        (List.mem_cons_self x xs))

theorem pairwise_insertSorted {α : Type} (lt : α → α → Bool)
    (S : α → α → Prop) (htrans : ∀ a b c, S a b → S b c → S a c) (x : α) :
    ∀ l : List α, l.Pairwise S →
    (∀ y ∈ l, (lt y x = true → S y x) ∧ (lt y x = false → S x y)) →
    (insertSorted lt x l).Pairwise S := by
  intro l
  induction l with
  | nil => intro _ _; simp [insertSorted]
  | cons y ys ih =>
    intro hp hx
    rw [List.pairwise_cons] at hp
    obtain ⟨hy_all, hys⟩ := hp
    by_cases hc : lt y x = true
    · have hred : insertSorted lt x (y :: ys) = y :: insertSorted lt x ys := by
        simp [insertSorted, hc]
      rw [hred, List.pairwise_cons]
      constructor
      · intro z hz
        rcases (mem_insertSorted lt x z ys).1 hz with rfl | hz2
        · exact (hx y (List.mem_cons_self y ys)).1 hc
        · exact hy_all z hz2
      · exact ih hys (fun z hz => hx z (List.mem_cons_of_mem y hz))
    · have hred : insertSorted lt x (y :: ys) = x :: y :: ys := by
        simp [insertSorted, hc]
      have hxy : S x y :=
        (hx y (List.mem_cons_self y ys)).2 (by simpa using hc)
      rw [hred, List.pairwise_cons]
      constructor
      · intro z hz
        rcases List.mem_cons.1 hz with rfl | hz2
        · exact hxy
        · exact htrans x y z hxy (hy_all z hz2)
      · rw [List.pairwise_cons]
        exact ⟨hy_all, hys⟩

theorem pairwise_stableSort {α : Type} (lt : α → α → Bool)
    (S : α → α → Prop) (htrans : ∀ a b c, S a b → S b c → S a c) :
    ∀ l : List α,
    (∀ a ∈ l, ∀ b ∈ l, (lt a b = true → S a b) ∧ (lt a b = false → S b a)) →
    (stableSort lt l).Pairwise S := by
  intro l
  induction l with
  | nil => intro _; simp [stableSort]
  | cons x xs ih =>
    intro h
    simp only [stableSort]
    refine pairwise_insertSorted lt S htrans x (stableSort lt xs)
      (ih fun a ha b hb =>
        h a (List.mem_cons_of_mem x ha) b (List.mem_cons_of_mem x hb))
      (fun y hy => ?_)
    exact h y (List.mem_cons_of_mem x ((mem_stableSort lt y xs).1 hy)) x
      (List.mem_cons_self x xs)

theorem getD_map {α β : Type} (f : α → β) (d : α) :
    ∀ (l : List α) (i : Nat), (l.map f).getD i (f d) = f (l.getD i d) := by
  intro l
  induction l with
  | nil => intro i; cases i <;> simp [List.getD]
  | cons x t ih => intro i; cases i <;> simp [List.getD, ih]

theorem assignIds_length (cent : Int) :
    ∀ (l : List RawTransaction) (ctr : List (String × Nat)),
    (assignIds cent l ctr).length = l.length := by
  intro l
  induction l with
  | nil => intro _; rfl
  | cons r t ih => intro ctr; simp [assignIds, ih]

theorem assignIds_map_date (cent : Int) :
    ∀ (l : List RawTransaction) (ctr : List (String × Nat)),
    (assignIds cent l ctr).map (fun t => t.date) =
      l.map (fun r => parseDate cent r.postingDate) := by
  intro l
  induction l with
  | nil => intro _; rfl
  | cons r t ih => intro ctr; simp [assignIds, ih]

theorem assignIds_congr (cent cent' : Int) :
    ∀ (l : List RawTransaction) (ctr : List (String × Nat)),
    (∀ r ∈ l, parseDate cent r.postingDate = parseDate cent' r.postingDate) →
    assignIds cent l ctr = assignIds cent' l ctr := by
  intro l
  induction l with
  | nil => intro _ _; rfl
  | cons r t ih =>
    intro ctr h
    have hr := h r (List.mem_cons_self r t)
    have hbk : baseKeyOf cent r = baseKeyOf cent' r := by
      unfold baseKeyOf
      rw [hr]
    have hmk : ∀ occ, makeStableTxId cent r occ = makeStableTxId cent' r occ := by
      intro occ
      unfold makeStableTxId
      rw [hbk]
    simp only [assignIds]
    rw [hbk, hmk, hr, ih _ (fun z hz => h z (List.mem_cons_of_mem r hz))]

theorem assignIds_getD_id (cent : Int) :
    ∀ (l : List RawTransaction) (ctr : List (String × Nat)) (i : Nat),
    i < l.length →
    ((assignIds cent l ctr).getD i defTx).id =
      makeStableTxId cent (l.getD i defRaw)
        ((lookupA ctr (baseKeyOf cent (l.getD i defRaw))).getD 0 +
          (l.take (i + 1)).countP
            (fun r => decide (baseKeyOf cent r =
              baseKeyOf cent (l.getD i defRaw)))) := by
  intro l
  induction l with
  | nil =>
    intro ctr i h
    simp at h
  | cons r t ih =>
    intro ctr i h
    cases i with
    | zero =>
      simp [assignIds, List.countP_cons]
    | succ j =>
      have h2 : j < t.length := by simpa using h
      have hrec := ih (setA ctr (baseKeyOf cent r)
        ((lookupA ctr (baseKeyOf cent r)).getD 0 + 1)) j h2
      simp only [assignIds, List.getD_cons_succ, List.take_succ_cons,
        List.countP_cons]
      rw [hrec]
      congr 1
      rw [lookupA_setA]
      by_cases hk : baseKeyOf cent r = baseKeyOf cent (t.getD j defRaw)
      · simp [hk]
        omega
      · rw [if_neg hk, if_neg (by simpa using hk)]
        omega

theorem applyRunning_length :
    ∀ (l : List Transaction) (b : ℚ), (applyRunning b l).length = l.length := by
  intro l
  induction l with
  | nil => intro _; rfl
  | cons x t ih => intro b; simp [applyRunning, ih]

theorem applyRunning_map_id :
    ∀ (l : List Transaction) (b : ℚ),
    (applyRunning b l).map (fun t => t.id) = l.map (fun t => t.id) := by
  intro l
  induction l with
  | nil => intro _; rfl
  | cons x t ih => intro b; simp [applyRunning, ih]

theorem applyRunning_map_date :
    ∀ (l : List Transaction) (b : ℚ),
    (applyRunning b l).map (fun t => t.date) = l.map (fun t => t.date) := by
  intro l
  induction l with
  | nil => intro _; rfl
  | cons x t ih => intro b; simp [applyRunning, ih]

theorem applyRunning_getD_head :
    ∀ (l : List Transaction) (b : ℚ), 0 < l.length →
    ((applyRunning b l).getD 0 defTx).runningBalance =
      b + ((applyRunning b l).getD 0 defTx).amount := by
  intro l b h
  cases l with
  | nil => simp at h
  | cons x t => simp [applyRunning]

theorem applyRunning_getD_step :
    ∀ (l : List Transaction) (b : ℚ) (i : Nat), i + 1 < l.length →
    ((applyRunning b l).getD (i + 1) defTx).runningBalance =
      ((applyRunning b l).getD i defTx).runningBalance +
        ((applyRunning b l).getD (i + 1) defTx).amount := by
  intro l
  induction l with
  | nil =>
    intro b i h
    simp at h
  | cons x t ih =>
    intro b i h
    cases i with
    | zero =>
      simp only [applyRunning, List.getD_cons_succ, List.getD_cons_zero]
      exact applyRunning_getD_head t (b + x.amount) (by simpa using h)
    | succ j =>
      simp only [applyRunning, List.getD_cons_succ]
      exact ih (b + x.amount) j (by simpa using h)

theorem processTransactions_map_id (cent : Int) (raw : List RawTransaction)
    (sb : ℚ) :
    (processTransactions cent raw sb).map (fun t => t.id) =
      (assignIds cent (stableSort (ltRaw cent) raw) []).map (fun t => t.id) := by
  simp only [processTransactions]
  rw [List.map_reverse, applyRunning_map_id, List.map_reverse,
    List.reverse_reverse, List.map_map]
  rfl

theorem processTransactions_map_date (cent : Int) (raw : List RawTransaction)
    (sb : ℚ) :
    (processTransactions cent raw sb).map (fun t => t.date) =
      (stableSort (ltRaw cent) raw).map (fun r => parseDate cent r.postingDate) := by
  simp only [processTransactions]
  rw [List.map_reverse, applyRunning_map_date, List.map_reverse,
    List.reverse_reverse, List.map_map]
  exact assignIds_map_date cent (stableSort (ltRaw cent) raw) []

theorem processTransactions_length (cent : Int) (raw : List RawTransaction)
    (sb : ℚ) :
    (processTransactions cent raw sb).length =
      (stableSort (ltRaw cent) raw).length := by
  have h := congrArg List.length (processTransactions_map_id cent raw sb)
  simpa [assignIds_length] using h

/-- Claim C1: over the pure embedding (where the only time-of-run inputs
are the century base of parseDate and nothing else), processTransactions
is deterministic: as long as no record carries a 2-digit-year date, the
whole output — ids and all field values — is independent of the
time-of-run century; the id sequence is independent of the starting
balance; the id is a pure function of the base key
(date, amount, type, description, qb-category hint) and the ordinal
occurrence; and the i-th id is exactly makeStableTxId of the i-th sorted
record with its ordinal among earlier records of equal base key. -/
theorem processTransactions_ids_pure (cent cent' : Int)
    (raw : List RawTransaction) (sb sb' : ℚ)
    (hyr : ∀ r ∈ raw, hasTwoDigitYearDate r.postingDate = false) :
    processTransactions cent raw sb = processTransactions cent' raw sb ∧
    (processTransactions cent raw sb).map (fun t => t.id) =
      (processTransactions cent raw sb').map (fun t => t.id) ∧
    (∀ r r' occ, baseKeyOf cent r = baseKeyOf cent r' →
      makeStableTxId cent r occ = makeStableTxId cent r' occ) ∧
    (∀ i, i < (processTransactions cent raw sb).length →
      ((processTransactions cent raw sb).getD i defTx).id =
        makeStableTxId cent ((stableSort (ltRaw cent) raw).getD i defRaw)
          (((stableSort (ltRaw cent) raw).take (i + 1)).countP
            (fun r => decide (baseKeyOf cent r =
              baseKeyOf cent ((stableSort (ltRaw cent) raw).getD i defRaw))))) := by
  have hpd : ∀ r ∈ raw, parseDate cent r.postingDate = parseDate cent' r.postingDate :=
    fun r hr => parseDate_cent_congr cent cent' r.postingDate (hyr r hr)
  refine ⟨?_, ?_, ?_, ?_⟩
  · have hlt : ∀ a ∈ raw, ∀ b ∈ raw, ltRaw cent a b = ltRaw cent' a b := by
      intro a ha b hb
      unfold ltRaw
      rw [hpd a ha, hpd b hb]
    have hsorted := stableSort_congr (ltRaw cent) (ltRaw cent') raw hlt
    have hassign : assignIds cent (stableSort (ltRaw cent) raw) [] =
        assignIds cent' (stableSort (ltRaw cent') raw) [] := by
      rw [← hsorted]
      exact assignIds_congr cent cent' (stableSort (ltRaw cent) raw) []
        (fun r hr => hpd r ((mem_stableSort (ltRaw cent) r raw).1 hr))
    simp only [processTransactions]
    rw [hassign]
  · rw [processTransactions_map_id cent raw sb,
      processTransactions_map_id cent raw sb']
  · intro r r' occ h
    unfold makeStableTxId
    rw [h]
  · intro i hi
    have hlen := processTransactions_length cent raw sb
    have hA : i < (assignIds cent (stableSort (ltRaw cent) raw) []).length := by
      rw [assignIds_length]
      omega
    have hmap := processTransactions_map_id cent raw sb
    have hgd : ((processTransactions cent raw sb).getD i defTx).id =
        ((assignIds cent (stableSort (ltRaw cent) raw) []).getD i defTx).id := by
      have h1 := getD_map (fun t : Transaction => t.id) defTx
        (processTransactions cent raw sb) i
      have h2 := getD_map (fun t : Transaction => t.id) defTx
        (assignIds cent (stableSort (ltRaw cent) raw) []) i
      rw [← h1, ← h2, hmap]
    rw [hgd, assignIds_getD_id cent (stableSort (ltRaw cent) raw) [] i (by omega)]
    simp [lookupA]

theorem pairwise_of_map {α β : Type} (f : α → β) (R : β → β → Prop)
    (l : List α) (h : (l.map f).Pairwise R) :
    l.Pairwise (fun a b => R (f a) (f b)) :=
  List.pairwise_map.1 h

theorem pairwise_map_of {α β : Type} (f : α → β) (R : β → β → Prop)
    (l : List α) (h : l.Pairwise (fun a b => R (f a) (f b))) :
    (l.map f).Pairwise R :=
  List.pairwise_map.2 h

/-- Claim C2: the transactions of processTransactions taken
oldest-to-newest (the reverse of the returned newest-first list, which is
date-sorted whenever every record's date parses) satisfy the running
balance recurrence: the first chronological balance is
startingBalance + amount, and each later one is the previous balance plus
the transaction amount. -/
theorem runningBalance_invariant (cent : Int) (raw : List RawTransaction)
    (sb : ℚ) :
    ((∀ r ∈ raw, (dateValue (parseDate cent r.postingDate)).isSome = true) →
      ((processTransactions cent raw sb).reverse).Pairwise
        (fun t u => ∀ x y, dateValue t.date = some x →
          dateValue u.date = some y → x ≤ y)) ∧
    (0 < (processTransactions cent raw sb).length →
      (((processTransactions cent raw sb).reverse).getD 0 defTx).runningBalance =
        sb + (((processTransactions cent raw sb).reverse).getD 0 defTx).amount) ∧
    (∀ i, i + 1 < (processTransactions cent raw sb).length →
      (((processTransactions cent raw sb).reverse).getD (i + 1) defTx).runningBalance =
        (((processTransactions cent raw sb).reverse).getD i defTx).runningBalance +
          (((processTransactions cent raw sb).reverse).getD (i + 1) defTx).amount) := by
  have hC : (processTransactions cent raw sb).reverse =
      applyRunning sb (((assignIds cent (stableSort (ltRaw cent) raw) []).map
        (fun tx => { tx with isRecurring := (lookupA (detectRecurring
          (assignIds cent (stableSort (ltRaw cent) raw) [])) tx.id).getD false })).reverse) := by
    simp only [processTransactions]
    rw [List.reverse_reverse]
  have hXlen : (((assignIds cent (stableSort (ltRaw cent) raw) []).map
      (fun tx => { tx with isRecurring := (lookupA (detectRecurring
        (assignIds cent (stableSort (ltRaw cent) raw) [])) tx.id).getD false })).reverse).length =
      (stableSort (ltRaw cent) raw).length := by
    rw [List.length_reverse, List.length_map, assignIds_length]
  have hPlen := processTransactions_length cent raw sb
  refine ⟨?_, ?_, ?_⟩
  · intro hsome
    have hdates := processTransactions_map_date cent raw sb
    have hcond : ∀ a ∈ raw, ∀ b ∈ raw,
        (ltRaw cent a b = true →
          (dateValue (parseDate cent b.postingDate)).getD 0 ≤
            (dateValue (parseDate cent a.postingDate)).getD 0) ∧
        (ltRaw cent a b = false →
          (dateValue (parseDate cent a.postingDate)).getD 0 ≤
            (dateValue (parseDate cent b.postingDate)).getD 0) := by
      intro a ha b hb
      obtain ⟨da, hda⟩ := Option.isSome_iff_exists.1 (hsome a ha)
      obtain ⟨db, hdb⟩ := Option.isSome_iff_exists.1 (hsome b hb)
      rw [hda, hdb]
      simp only [Option.getD_some]
      constructor
      · intro hlt
        unfold ltRaw at hlt
        rw [hda, hdb] at hlt
        by_cases hne : da = db
        · omega
        · simp only [if_pos hne] at hlt
          simp at hlt
          omega
      · intro hlt
        unfold ltRaw at hlt
        rw [hda, hdb] at hlt
        by_cases hne : da = db
        · omega
        · simp only [if_pos hne] at hlt
          simp at hlt
          omega
    have hS : (stableSort (ltRaw cent) raw).Pairwise
        (fun a b => (dateValue (parseDate cent b.postingDate)).getD 0 ≤
          (dateValue (parseDate cent a.postingDate)).getD 0) :=
      pairwise_stableSort (ltRaw cent)
        (fun a b => (dateValue (parseDate cent b.postingDate)).getD 0 ≤
          (dateValue (parseDate cent a.postingDate)).getD 0)
        (fun a b c h1 h2 => le_trans h2 h1) raw hcond
    have h1 : (stableSort (ltRaw cent) raw).Pairwise
        (fun a b => ∀ x y,
          dateValue (parseDate cent b.postingDate) = some x →
          dateValue (parseDate cent a.postingDate) = some y → x ≤ y) := by
      refine hS.imp ?_
      intro a b hab x y hx hy
      rw [hx, hy] at hab
      simpa using hab
    have h2 : ((stableSort (ltRaw cent) raw).map
        (fun r => parseDate cent r.postingDate)).Pairwise
        (fun s u => ∀ x y, dateValue u = some x → dateValue s = some y →
          x ≤ y) :=
      pairwise_map_of (fun r : RawTransaction => parseDate cent r.postingDate)
        _ _ h1
    have h3 : (((stableSort (ltRaw cent) raw).map
        (fun r => parseDate cent r.postingDate)).reverse).Pairwise
        (fun s u => ∀ x y, dateValue s = some x → dateValue u = some y →
          x ≤ y) :=
      List.pairwise_reverse.2 h2
    have h4 : ((processTransactions cent raw sb).reverse).map (fun t => t.date) =
        ((stableSort (ltRaw cent) raw).map
          (fun r => parseDate cent r.postingDate)).reverse := by
      rw [List.map_reverse, hdates]
    have h5 := h4 ▸ h3
    exact pairwise_of_map (fun t : Transaction => t.date) _ _ h5
  · intro h0
    rw [hC]
    exact applyRunning_getD_head _ sb (by omega)
  · intro i h
    rw [hC]
    exact applyRunning_getD_step _ sb i (by omega)

def c12Raw : List RawTransaction :=
  [{ details := "DEBIT", postingDate := "01/16/2025", description := "ACME RENT",
     amount := mkRat (-1200) 1, type := "ACH_DEBIT", balance := 0,
     checkOrSlip := none, qbCategory := "" },
   { details := "CREDIT", postingDate := "01/15/2025",
     description := "MARGIN FREIGHT INVOICE", amount := mkRat 2500 1,
     type := "ACH_CREDIT", balance := 0, checkOrSlip := none,
     qbCategory := "" }]

theorem processTransactions_ids_pure_witness :
    (∀ r ∈ c12Raw, hasTwoDigitYearDate r.postingDate = false) ∧
    processTransactions 2000 c12Raw 0 = processTransactions 1900 c12Raw 0 ∧
    (processTransactions 2000 c12Raw 0).map (fun t => t.id) =
      (processTransactions 2000 c12Raw 500).map (fun t => t.id) ∧
    0 < (processTransactions 2000 c12Raw 0).length ∧
    ((processTransactions 2000 c12Raw 0).getD 0 defTx).id =
      makeStableTxId 2000 ((stableSort (ltRaw 2000) c12Raw).getD 0 defRaw)
        (((stableSort (ltRaw 2000) c12Raw).take 1).countP
          (fun r => decide (baseKeyOf 2000 r =
            baseKeyOf 2000 ((stableSort (ltRaw 2000) c12Raw).getD 0 defRaw)))) :=
  ⟨by decide,
   (processTransactions_ids_pure 2000 1900 c12Raw 0 0 (by decide)).1,
   (processTransactions_ids_pure 2000 1900 c12Raw 0 500 (by decide)).2.1,
   by decide,
   (processTransactions_ids_pure 2000 1900 c12Raw 0 0 (by decide)).2.2.2 0
     (by decide)⟩

theorem runningBalance_invariant_witness :
    (∀ r ∈ c12Raw, (dateValue (parseDate 2000 r.postingDate)).isSome = true) ∧
    ((processTransactions 2000 c12Raw 100).reverse).Pairwise
      (fun t u => ∀ x y, dateValue t.date = some x →
        dateValue u.date = some y → x ≤ y) ∧
    0 < (processTransactions 2000 c12Raw 100).length ∧
    (((processTransactions 2000 c12Raw 100).reverse).getD 0 defTx).runningBalance =
      100 + (((processTransactions 2000 c12Raw 100).reverse).getD 0 defTx).amount ∧
    0 + 1 < (processTransactions 2000 c12Raw 100).length ∧
    (((processTransactions 2000 c12Raw 100).reverse).getD (0 + 1) defTx).runningBalance =
      (((processTransactions 2000 c12Raw 100).reverse).getD 0 defTx).runningBalance +
        (((processTransactions 2000 c12Raw 100).reverse).getD (0 + 1) defTx).amount :=
  ⟨by decide,
   (runningBalance_invariant 2000 c12Raw 100).1 (by decide),
   by decide,
   (runningBalance_invariant 2000 c12Raw 100).2.1 (by decide),
   by decide,
   (runningBalance_invariant 2000 c12Raw 100).2.2 0 (by decide)⟩
